import Mathlib

/-!
Verification development for the TVM target configuration object model
(`src/target/target.cc`).  The C++ code is shallowly embedded: strings are
`List Char`, the reflective `ffi::Any` value substrate is the closed variant
`AttrVal`, thrown errors and fatal checks are an `Except TErr` result, and the
external collaborators (the TargetKind registry, the tag registry, the
structured-config loader and the device API) are parameters gathered in a
`TargetEnv` record, modelled from the specification since their code is not
part of this repository.
-/

namespace TVM

/-- Strings are modelled at character level. -/
abbrev Str := List Char

/-- The reserved quote character of `TargetInternal` (a single quote). -/
def quoteChar : Char := '\''

/-- The reserved escape character of `TargetInternal` (a backslash). -/
def escapeChar : Char := '\\'

/-- Error model: `fatal` stands for `ICHECK` / `LOG(FATAL)` (unrecoverable),
`typeError` and `valueError` for thrown `TVM_FFI_THROW(TypeError)` and
`TVM_FFI_THROW(ValueError)`; `outOfFuel` is an artifact of the fuel used to
bound the recursion of the mutually recursive constructors. -/
inductive TErr where
  | fatal
  | typeError
  | valueError
  | outOfFuel
deriving DecidableEq, Repr

/-- Interior scan of `TargetInternal::IsQuoted`: walks the characters between
the enclosing quotes carrying the `escaping` flag; returns `!escaping` at the
end and `false` as soon as an unescaped quote is seen. -/
def isQuotedLoop : Str → Bool → Bool
  | [], escaping => !escaping
  | c :: rest, escaping =>
    if escaping then isQuotedLoop rest false
    else if c = escapeChar then isQuotedLoop rest true
    else if c = quoteChar then false
    else isQuotedLoop rest false

/-- `TargetInternal::IsQuoted`: the string has length at least 2, starts and
ends with the quote character, and its interior scan succeeds. -/
def isQuoted (s : Str) : Bool :=
  if s.length < 2 then false
  else if s.head? ≠ some quoteChar then false
  else if s.getLast? ≠ some quoteChar then false
  else isQuotedLoop ((s.drop 1).dropLast) false

/-- `TargetInternal::Quote`: wrap in enclosing quote characters. -/
def quoteStr (s : Str) : Str := quoteChar :: (s ++ [quoteChar])

/-- Joining with a separator between consecutive elements (the loop body of
`TargetInternal::JoinString`). -/
def joinRec (sep : Char) : List Str → Str
  | [] => []
  | [t] => t
  | t1 :: t2 :: ts => t1 ++ sep :: joinRec sep (t2 :: ts)

/-- `TargetInternal::JoinString`: `ICHECK`s that the separator is not the
quote or escape character, then joins with single separators. -/
def joinString (xs : List Str) (sep : Char) : Except TErr Str :=
  if sep = quoteChar ∨ sep = escapeChar then .error .fatal
  else .ok (joinRec sep xs)

/-- Main loop of `TargetInternal::SplitString`: `word` is the accumulated
current token, `quoted` the quoted-region flag.  An unquoted separator
finishes the word (empty words are dropped), an escape character followed by
another character is copied through as a unit, a quote character is copied
and toggles the flag.  A string ending inside a quoted region is an `ICHECK`
failure. -/
def splitLoop (sep : Char) : Str → Str → Bool → Except TErr (List Str)
  | [], word, quoted =>
    if quoted then .error .fatal
    else if word = [] then .ok [] else .ok [word]
  | c :: rest, word, quoted =>
    if c = sep ∧ quoted = false then
      Except.map (fun xs => if word = [] then xs else word :: xs) (splitLoop sep rest [] false)
    else if c = escapeChar then
      match rest with
      | c2 :: rest2 => splitLoop sep rest2 (word ++ [escapeChar, c2]) quoted
      | [] => splitLoop sep [] (word ++ [escapeChar]) quoted
    else if c = quoteChar then
      splitLoop sep rest (word ++ [quoteChar]) (!quoted)
    else
      splitLoop sep rest (word ++ [c]) quoted

/-- `TargetInternal::SplitString`. -/
def splitString (s : Str) (sep : Char) : Except TErr (List Str) :=
  splitLoop sep s [] false

/-- Main loop of `TargetInternal::Interpret`: when `escaping`, the character
is copied and the flag cleared; an escape character sets the flag and is
itself copied only inside a quoted region; a quote character toggles the
quoted-region flag and is copied; anything else is copied. -/
def interpretLoop : Str → Bool → Bool → Str
  | [], _, _ => []
  | c :: rest, escaping, insideQuote =>
    if escaping then c :: interpretLoop rest false insideQuote
    else if c = escapeChar then
      if insideQuote then c :: interpretLoop rest true insideQuote
      else interpretLoop rest true insideQuote
    else if c = quoteChar then c :: interpretLoop rest false (!insideQuote)
    else c :: interpretLoop rest false insideQuote

/-- `TargetInternal::Interpret`: empty input is returned unchanged; a fully
quoted string is stripped of its enclosing quotes first; then the main loop
runs.  Note that the C++ code never raises on a trailing unmatched escape:
the loop simply ends with the `escaping` flag set and the escape character
dropped (when outside a quoted region). -/
def interpret (s : Str) : Str :=
  if s = [] then []
  else if isQuoted s then interpretLoop ((s.drop 1).dropLast) false false
  else interpretLoop s false false

/-- `TargetInternal::Uninterpret`: precede every quote or escape character by
an escape character. -/
def uninterpret : Str → Str
  | [] => []
  | c :: rest =>
    if c = escapeChar ∨ c = quoteChar then escapeChar :: c :: uninterpret rest
    else c :: uninterpret rest

/-- `ParseKVPair`: given the dash-stripped token `s` and the following raw
token `sNext` (empty when absent), returns the number of consumed tokens
together with the key and value.  A token containing an equals sign splits at
the first one (empty halves raise a `ValueError`); otherwise a following
token not starting with a dash is the value; otherwise the implicit boolean
value is the one-character string `1`. -/
def parseKVPair (s sNext : Str) : Except TErr (Nat × Str × Str) :=
  if s.contains '=' then
    let k := s.takeWhile (fun c => c ≠ '=')
    let v := (s.dropWhile (fun c => c ≠ '=')).drop 1
    if k = [] ∨ v = [] then .error .valueError
    else .ok (1, k, v)
  else if sNext ≠ [] ∧ sNext.head? ≠ some '-' then .ok (2, s, sNext)
  else .ok (1, s, ['1'])

/-- `RemovePrefixDashes`: a leading run of dashes is required and stripped;
no dash at all, or dashes covering the whole token, is a `ValueError`. -/
def removePrefixDashes (s : Str) : Except TErr Str :=
  let nDashes := (s.takeWhile (fun c => c = '-')).length
  if nDashes = 0 then .error .valueError
  else if s.length ≤ nDashes then .error .valueError
  else .ok (s.drop nDashes)

/-- `DeduplicateKeys` (file-static helper): keep the first occurrence of every
key, checking each key against the prefix already traversed. -/
def dedupAux : List Str → List Str → List Str
  | _, [] => []
  | seen, k :: rest =>
    if k ∈ seen then dedupAux (seen ++ [k]) rest
    else k :: dedupAux (seen ++ [k]) rest

/-- `DeduplicateKeys`. -/
def dedupKeys (keys : List Str) : List Str := dedupAux [] keys

/-! ## The value model

The reflective `ffi::Any` substrate is modelled, following the specification
(design note on dynamic reflective dispatch), as a closed variant covering
absent values, booleans, integers, strings, arrays, maps and nested targets.
A `TargetNode` is the `target` constructor: kind name, optional host, tag,
keys, attribute map and feature map. -/

inductive AttrVal where
  | null
  | int (i : Int)
  | bool (b : Bool)
  | str (s : Str)
  | arr (elems : List AttrVal)
  | map (kvs : List (AttrVal × AttrVal))
  | target (kind : Str) (host : Option AttrVal) (tag : Str)
      (keys : List Str) (attrs : List (Str × AttrVal))
      (features : List (Str × AttrVal))

/-- `TargetKindNode::ValueTypeInfo`: the type schema of an attribute value,
with recursive element and key/value schemas for arrays and maps. -/
inductive VType where
  | int
  | bool
  | str
  | target
  | arr (elem : VType)
  | map (key val : VType)
deriving DecidableEq, Repr

/-- A `Map<String, ffi::Any>` is an association list with unique keys; the
list order is the (unspecified) iteration order of the C++ map. -/
abbrev ConfigMap := List (Str × AttrVal)

/-- Association-list lookup (`Map::count` / `Map::at`). -/
def lookupStr {α : Type} : List (Str × α) → Str → Option α
  | [], _ => none
  | (k, v) :: rest, key => if k = key then some v else lookupStr rest key

/-- `Map::erase`: remove the entry of a key (keys are unique). -/
def eraseStr (m : ConfigMap) (key : Str) : ConfigMap :=
  m.filter (fun p => decide (p.1 ≠ key))

/-- The literal config field names of `TargetInternal::FromConfig`. -/
def kKind : Str := "kind".data

/-- Field name `tag`. -/
def kTag : Str := "tag".data

/-- Field name `keys`. -/
def kKeys : Str := "keys".data

/-- Field name `device`. -/
def kDeviceName : Str := "device".data

/-- Field name `host`. -/
def kHost : Str := "host".data

/-- Field name `features`. -/
def kFeatures : Str := "features".data

/-- Attribute name `from_device`. -/
def kFromDevice : Str := "from_device".data

/-- The opening-brace character that routes `FromString` to the structured
config loader. -/
def lbraceChar : Char := Char.ofNat 123

/-- Modelled from the spec: the device API handle of `QueryDevice` (the
`runtime::DeviceAPI` implementation is not part of this repository): whether
the queried device exists and its per-attribute property lookup. -/
structure DeviceAPIModel where
  devExists : Bool
  getProp : Str → AttrVal

/-- Modelled from the spec: a `TargetKind` registry entry (the registry lives
in `target_kind.cc`, outside this repository): per the spec it supplies the
attribute-name to value-type-schema mapping, the attribute defaults, the two
mutually exclusive hooks, a default device type and default key tags. -/
structure TargetKindInfo where
  name : Str
  defaultKeys : List Str
  key2vtype : List (Str × VType)
  key2default : ConfigMap
  defaultDeviceType : Int
  targetParser : Option (ConfigMap → Except TErr ConfigMap)
  preprocessor : Option (ConfigMap → Except TErr ConfigMap)

/-- Modelled from the spec: the external collaborators consumed by the
constructors — the kind registry (`TargetKind::Get`), the tag registry
(`TargetTag::Get`), the optional structured-config loader
(`target._load_config_dict`) and the device API lookup. -/
structure TargetEnv where
  kinds : Str → Option TargetKindInfo
  tags : Str → Option AttrVal
  loader : Option (Str → Option ConfigMap)
  deviceAPI : Int → Int → Option DeviceAPIModel

/-- `GetTargetKind`: an unregistered kind name is a `TypeError`. -/
def getTargetKind (env : TargetEnv) (name : Str) : Except TErr TargetKindInfo :=
  match env.kinds name with
  | none => .error .typeError
  | some k => .ok k

/-- `TargetInternal::FindTypeInfo`: unknown attribute keys raise a
`TypeError` (listing the valid candidates). -/
def findTypeInfo (kind : TargetKindInfo) (key : Str) : Except TErr VType :=
  match lookupStr kind.key2vtype key with
  | none => .error .typeError
  | some info => .ok info

/-- `TargetInternal::QueryDevice`: an unavailable device API yields an empty
parameter map with a diagnostic log; a nonexistent device id trips an
`ICHECK`; otherwise every schema-declared attribute is queried.  The device
type is the kind default, since `target->attrs` is still empty when
`QueryDevice` runs inside `FromConfig`. -/
def queryDevice (env : TargetEnv) (kind : TargetKindInfo) (devId : Int) :
    Except TErr ConfigMap :=
  match env.deviceAPI kind.defaultDeviceType devId with
  | none => .ok []
  | some api =>
    if api.devExists then .ok (kind.key2vtype.map (fun p => (p.1, api.getProp p.1)))
    else .error .fatal

/-! ## Integer and string scalar parsing -/

/-- The whitespace skipped by `std::istringstream` before an integer. -/
def isCppSpace (c : Char) : Bool :=
  decide (c = ' ' ∨ c = Char.ofNat 9 ∨ c = Char.ofNat 10 ∨ c = Char.ofNat 11 ∨
    c = Char.ofNat 12 ∨ c = Char.ofNat 13)

/-- Decimal digit test. -/
def isDigitChar (c : Char) : Bool := decide (48 ≤ c.toNat ∧ c.toNat ≤ 57)

/-- Decimal value of a digit run, most significant first. -/
def fold10 (ds : Str) (v : Nat) : Nat := ds.foldl (fun a c => 10 * a + (c.toNat - 48)) v

/-- `is >> v` for a 64-bit integer: skip leading whitespace, an optional
sign immediately followed by at least one digit; trailing junk is left
unread (the extraction still succeeds). -/
def cppReadInt (s : Str) : Option Int :=
  let t := s.dropWhile isCppSpace
  let neg : Bool := t.head? = some '-'
  let t2 := if t.head? = some '-' ∨ t.head? = some '+' then t.drop 1 else t
  let ds := t2.takeWhile isDigitChar
  if ds = [] then none
  else some (if neg then -(fold10 ds 0 : Int) else (fold10 ds 0 : Int))

/-- The integer/boolean scalar text parser of `ParseType` (string overload):
stream extraction first, then the case-insensitive `true` / `false`
fallback, otherwise a `ValueError`. -/
def parseTargetInt (s : Str) : Except TErr Int :=
  match cppReadInt s with
  | some v => .ok v
  | none =>
    let lower := s.map Char.toLower
    if lower = "true".data then .ok 1
    else if lower = "false".data then .ok 0
    else .error .valueError

/-- The string scalar path of `ParseType` (string overload): strip leading
and trailing space characters; an all-space string yields the empty
string. -/
def trimSpaces (s : Str) : Str :=
  ((s.dropWhile (fun c => decide (c = ' '))).reverse.dropWhile
    (fun c => decide (c = ' '))).reverse

/-! ## Decimal rendering (`std::to_string`) -/

/-- Digits of a positive number, accumulator style; the first argument is a
structural bound on the number of divisions (any bound at least the argument
gives the digits). -/
def natToDecAux : Nat → Nat → Str → Str
  | 0, _, acc => acc
  | _ + 1, 0, acc => acc
  | bound + 1, n + 1, acc =>
    natToDecAux bound ((n + 1) / 10) (Char.ofNat (48 + (n + 1) % 10) :: acc)

/-- Decimal rendering of a natural number. -/
def natToDec (n : Nat) : Str := if n = 0 then ['0'] else natToDecAux n n []

/-- `std::to_string` on a 64-bit integer. -/
def intToString (i : Int) : Str :=
  if i < 0 then '-' :: natToDec i.natAbs else natToDec i.natAbs

/-! ## Sorting attribute keys (`std::sort` on strings) -/

/-- Lexicographic comparison of strings by character code. -/
def strLe : Str → Str → Bool
  | [], _ => true
  | _ :: _, [] => false
  | a :: as, b :: bs =>
    if a.toNat < b.toNat then true
    else if b.toNat < a.toNat then false
    else strLe as bs

/-- Sorted insertion. -/
def insertSorted (x : Str) : List Str → List Str
  | [] => [x]
  | y :: ys => if strLe x y then x :: y :: ys else y :: insertSorted x ys

/-- Sorting the attribute keys: the exact sorting algorithm is irrelevant
because map keys are unique, so any ascending order is the one produced by
`std::sort`. -/
def sortStrs : List Str → List Str
  | [] => []
  | x :: xs => insertSorted x (sortStrs xs)

/-! ## Stringifying -/

/-- `TargetInternal::StringifyAtomicType`: booleans and integers render as
decimal text; strings are escaped with `Uninterpret` and wrapped in quotes
when the escaped form contains a space and is not already fully quoted;
anything else is a `LOG(FATAL)`. -/
def stringifyAtomicType : AttrVal → Except TErr Str
  | .bool b => .ok (if b then ['1'] else ['0'])
  | .int i => .ok (intToString i)
  | .str s =>
    let u := uninterpret s
    .ok (if u.contains ' ' ∧ isQuoted u = false then quoteStr u else u)
  | _ => .error .fatal

/-- Element loop of `TargetInternal::StringifyArray`: each element is
stringified atomically, escaped once more with `Uninterpret`, and quoted when
the result contains a comma and is not already fully quoted. -/
def stringifyArrayElems : List AttrVal → Except TErr (List Str)
  | [] => .ok []
  | item :: rest =>
    match stringifyAtomicType item with
    | .error e => .error e
    | .ok s =>
      let u := uninterpret s
      let u2 := if u.contains ',' ∧ isQuoted u = false then quoteStr u else u
      Except.map (fun tail => u2 :: tail) (stringifyArrayElems rest)

/-- `TargetInternal::StringifyArray`: comma-joined element renderings. -/
def stringifyArray (elems : List AttrVal) : Except TErr Str :=
  match stringifyArrayElems elems with
  | .error e => .error e
  | .ok xs => joinString xs ','

/-- The per-value dispatch of `StringifyAttrsToRaw`: arrays through
`StringifyArray`, everything else through `StringifyAtomicType`. -/
def stringifyValue : AttrVal → Except TErr Str
  | .arr es => stringifyArray es
  | v => stringifyAtomicType v

/-- Undefined (`nullptr`) attribute test. -/
def isNullVal : AttrVal → Bool
  | .null => true
  | _ => false

/-- Entry loop of `TargetInternal::StringifyAttrsToRaw` over the sorted key
list: undefined attributes are skipped, entries whose rendered value is empty
are omitted, the rest become `-key=value` tokens. -/
def stringifyEntries (attrs : ConfigMap) : List Str → Except TErr (List Str)
  | [] => .ok []
  | key :: rest =>
    match lookupStr attrs key with
    | none => .error .fatal
    | some v =>
      if isNullVal v then stringifyEntries attrs rest
      else
        match stringifyValue v with
        | .error e => .error e
        | .ok value =>
          Except.map (fun tail => if value = [] then tail else ('-' :: key ++ '=' :: value) :: tail)
            (stringifyEntries attrs rest)

/-- `TargetInternal::StringifyAttrsToRaw`: collect the attribute keys, sort
them, render each entry and join with spaces. -/
def stringifyAttrsToRaw (attrs : ConfigMap) : Except TErr Str :=
  match stringifyEntries attrs (sortStrs (attrs.map Prod.fst)) with
  | .error e => .error e
  | .ok result => joinString result ' '

/-- `TargetNode::str`: the kind name, a ` -keys=k1,k2,...` part when the key
list is non-empty, then a space and the sorted attribute string (the
attribute part is always appended because `StringifyAttrsToRaw` always
returns an engaged `Optional`, so an empty attribute rendering leaves a
trailing space). -/
def targetStr : AttrVal → Except TErr Str
  | .target kind _ _ keys attrs _ =>
    let base := if keys = [] then kind
      else kind ++ " -keys=".data ++ joinRec ',' keys
    match stringifyAttrsToRaw attrs with
    | .error e => .error e
    | .ok attrsStr => .ok (base ++ ' ' :: attrsStr)
  | _ => .error .fatal

/-! ## Non-recursive pieces of the config assembler -/

/-- String-key extraction for a user-supplied `keys` array: every element
must be a string, otherwise a `TypeError` is raised. -/
def extractStrKeys : List AttrVal → Except TErr (List Str)
  | [] => .ok []
  | .str s :: rest => Except.map (fun tail => s :: tail) (extractStrKeys rest)
  | _ :: _ => .error .typeError

/-- The device part of the key resolution: a string-valued `device` entry
contributes its value, anything else is silently ignored (`try_cast`). -/
def deviceKeyPart (config : ConfigMap) : List Str :=
  match lookupStr config kDeviceName with
  | some (.str d) => [d]
  | _ => []

/-- The `keys` block of `TargetInternal::FromConfig`: user-supplied keys are
taken verbatim (a non-array or an array with a non-string element is a
`TypeError`), then a string `device` value is appended, then — only when no
user keys were supplied — the kind default keys are appended, and finally
duplicates are removed keeping first occurrences. -/
def resolveKeys (config : ConfigMap) (kind : TargetKindInfo) : Except TErr (List Str) :=
  match lookupStr config kKeys with
  | some (.arr es) =>
    match extractStrKeys es with
    | .error e => .error e
    | .ok userKeys => .ok (dedupKeys (userKeys ++ deviceKeyPart config))
  | some _ => .error .typeError
  | none => .ok (dedupKeys (deviceKeyPart config ++ kind.defaultKeys))

/-- String key of a map entry, when it is a string (`as<StringObj>`). -/
def strKeyOf : AttrVal → Option Str
  | .str s => some s
  | _ => none

/-- Conversion of a generic map value into a string-keyed config map; `none`
when some key is not a string. -/
def asStrMapList : List (AttrVal × AttrVal) → Option ConfigMap
  | [] => some []
  | (k, v) :: rest =>
    match strKeyOf k with
    | none => none
    | some s => Option.map (fun t => (s, v) :: t) (asStrMapList rest)

/-- `try_cast<Map<String, ffi::Any>>` on an `ffi::Any`. -/
def asStrMap : AttrVal → Option ConfigMap
  | .map kvs => asStrMapList kvs
  | _ => none

/-- The `target_parser` hook step of `FromConfig`: when the kind defines a
parser hook, it rewrites the config; an emitted `features` entry must cast
down to a string-keyed map (otherwise the `Downcast` is fatal) and is
extracted and erased.  Without a hook the config passes through and the
feature map is empty. -/
def runTargetParserHook (kind : TargetKindInfo) (config : ConfigMap) :
    Except TErr (ConfigMap × ConfigMap) :=
  match kind.targetParser with
  | none => .ok (config, [])
  | some parser =>
    match parser config with
    | .error e => .error e
    | .ok config2 =>
      match lookupStr config2 kFeatures with
      | none => .ok (config2, [])
      | some fv =>
        match asStrMap fv with
        | some fm => .ok (eraseStr config2 kFeatures, fm)
        | none => .error .fatal

/-- Merge of queried or default parameters: entries whose key is already
present are kept, missing ones are inserted. -/
def mergeMissing (attrs extra : ConfigMap) : ConfigMap :=
  attrs ++ extra.filter (fun p => (lookupStr attrs p.1).isNone)

/-- The `from_device` step of `FromConfig`: when present, the attribute must
carry the device id as an integer (`cast<int64_t>`), is removed, and the
queried device parameters fill in attributes not explicitly supplied. -/
def handleFromDevice (env : TargetEnv) (kind : TargetKindInfo) (attrs : ConfigMap) :
    Except TErr ConfigMap :=
  match lookupStr attrs kFromDevice with
  | none => .ok attrs
  | some (.int devId) =>
    match queryDevice env kind devId with
    | .error e => .error e
    | .ok params => .ok (mergeMissing (eraseStr attrs kFromDevice) params)
  | some _ => .error .typeError

/-- The final preprocessor step of `FromConfig`. -/
def runPreprocessor (kind : TargetKindInfo) (attrs : ConfigMap) : Except TErr ConfigMap :=
  match kind.preprocessor with
  | none => .ok attrs
  | some p => p attrs

/-- The rethrow of the `Target` constructors from a string or a config map:
a caught `Error` is rethrown with kind `ValueError` (fatal conditions are
not caught). -/
def wrapCtorErr (r : Except TErr AttrVal) : Except TErr AttrVal :=
  match r with
  | .error .typeError => .error .valueError
  | .error .valueError => .error .valueError
  | .error e => .error e
  | .ok v => .ok v

/-! ## The mutually recursive constructors

The C++ functions recurse through nested targets (host targets, target-typed
attributes, targets inside arrays).  The recursion is bounded with a `fuel`
counter: the bundle of constructors is defined by structural recursion on
`fuel`, every cross call going through the bundle of the previous fuel level,
and `outOfFuel` standing for exhaustion.  Enough fuel (one level per nesting
level of the input) gives the behaviour of the C++ code.  The per-element
loops are ordinary structural recursions over their list, parameterised by
the previous-level parser. -/

/-- The bundle of the mutually recursive constructor functions at one fuel
level. -/
structure Ctors where
  fromStringF : Str → Except TErr AttrVal
  fromConfigStringF : Str → Except TErr AttrVal
  fromRawStringF : Str → Except TErr AttrVal
  fromConfigF : ConfigMap → Except TErr AttrVal
  parseTypeStrF : Str → VType → Except TErr AttrVal
  parseTypeAnyF : AttrVal → VType → Except TErr AttrVal
  dispatchOneF : AttrVal → Except TErr AttrVal

/-- Element loop of the raw-string array parser (errors get an index suffix
in the C++ code; the error kind is preserved). -/
def parseElems (pt : Str → Except TErr AttrVal) : List Str → Except TErr (List AttrVal)
  | [] => .ok []
  | sub :: rest =>
    match pt sub with
    | .error e => .error e
    | .ok v => Except.map (fun tail => v :: tail) (parseElems pt rest)

/-- Element loop of the dynamic-value array parser. -/
def parseAnyElems (pa : AttrVal → Except TErr AttrVal) : List AttrVal → Except TErr (List AttrVal)
  | [] => .ok []
  | e0 :: rest =>
    match pa e0 with
    | .error e => .error e
    | .ok v => Except.map (fun tail => v :: tail) (parseAnyElems pa rest)

/-- Entry loop of the dynamic-value map parser: keys and values are parsed
against their sub-schemas (the C++ code annotates errors with the key). -/
def parseMapEntries (pk pv : AttrVal → Except TErr AttrVal) :
    List (AttrVal × AttrVal) → Except TErr (List (AttrVal × AttrVal))
  | [] => .ok []
  | (k0, v0) :: rest =>
    match pk k0 with
    | .error e => .error e
    | .ok k =>
      match pv v0 with
      | .error e => .error e
      | .ok v => Except.map (fun tail => (k, v) :: tail) (parseMapEntries pk pv rest)

/-- Flag loop of `FromRawString`: strip the leading dashes, split the
key/value pair with one-token lookahead, reject duplicate keys with a
`ValueError`, look up the key schema and parse the value from its raw
text; a `--key value` pair consumes the lookahead token as well.  The
lookahead consumption (`i += 2` in the C++ loop) is modelled with a skip
flag so the recursion stays structural on the token list. -/
def parseAttrFlagsAux (kind : TargetKindInfo) (pt : Str → VType → Except TErr AttrVal) :
    List Str → ConfigMap → Bool → Except TErr ConfigMap
  | [], config, _ => .ok config
  | _ :: rest, config, true => parseAttrFlagsAux kind pt rest config false
  | tok :: rest, config, false =>
    match removePrefixDashes tok with
    | .error e => .error e
    | .ok stripped =>
      match parseKVPair stripped (rest.head?.getD []) with
      | .error e => .error e
      | .ok (consumed, key, value) =>
        if (lookupStr config key).isSome then .error .valueError
        else
          match findTypeInfo kind key with
          | .error e => .error e
          | .ok info =>
            match pt value info with
            | .error e => .error e
            | .ok v =>
              parseAttrFlagsAux kind pt rest (config ++ [(key, v)]) (decide (consumed = 2))

/-- The flag loop entry point. -/
def parseAttrFlags (kind : TargetKindInfo) (pt : Str → VType → Except TErr AttrVal)
    (toks : List Str) (config : ConfigMap) : Except TErr ConfigMap :=
  parseAttrFlagsAux kind pt toks config false

/-- Attribute loop of `FromConfig`: every remaining config entry is looked up
in the kind schema and parsed along the dynamic-value path. -/
def parseConfigAttrs (kind : TargetKindInfo) (pa : AttrVal → VType → Except TErr AttrVal) :
    ConfigMap → Except TErr ConfigMap
  | [] => .ok []
  | (key, value) :: rest =>
    match findTypeInfo kind key with
    | .error e => .error e
    | .ok info =>
      match pa value info with
      | .error e => .error e
      | .ok v => Except.map (fun tail => (key, v) :: tail) (parseConfigAttrs kind pa rest)

/-- The exhausted bundle: every constructor reports `outOfFuel`. -/
def ctorsZero : Ctors :=
  { fromStringF := fun _ => .error .outOfFuel
    fromConfigStringF := fun _ => .error .outOfFuel
    fromRawStringF := fun _ => .error .outOfFuel
    fromConfigF := fun _ => .error .outOfFuel
    parseTypeStrF := fun _ _ => .error .outOfFuel
    parseTypeAnyF := fun _ _ => .error .outOfFuel
    dispatchOneF := fun _ => .error .outOfFuel }

/-- `TargetInternal::FromString` body at one fuel level: a registered tag
short-circuits; an input starting with an opening brace goes through the
structured-config loader; anything else is parsed as a raw flag string. -/
def fromStringBody (env : TargetEnv) (prev : Ctors) (s : Str) : Except TErr AttrVal :=
  match env.tags s with
  | some t => .ok t
  | none =>
    if s ≠ [] ∧ s.head? = some lbraceChar then prev.fromConfigStringF s
    else prev.fromRawStringF s

/-- `TargetInternal::FromConfigString` body: an unregistered loader is an
`ICHECK` failure, a failed load a `ValueError`. -/
def fromConfigStringBody (env : TargetEnv) (prev : Ctors) (s : Str) : Except TErr AttrVal :=
  match env.loader with
  | none => .error .fatal
  | some load =>
    match load s with
    | none => .error .valueError
    | some config => prev.fromConfigF config

/-- `TargetInternal::FromRawString` body: a zero-length input trips
`ICHECK_GT(target_str.length(), 0)`; the input is split on spaces, the first
token resolves the kind, the remaining tokens are parsed as attribute flags
and the loose config goes through `FromConfig`.  An input whose tokenisation
is empty dereferences `options[0]` out of bounds in the C++ code, modelled
as a crash. -/
def fromRawStringBody (env : TargetEnv) (prev : Ctors) (s : Str) : Except TErr AttrVal :=
  if s.length = 0 then .error .fatal
  else
    match splitString s ' ' with
    | .error e => .error e
    | .ok [] => .error .fatal
    | .ok (name :: rest) =>
      match getTargetKind env name with
      | .error e => .error e
      | .ok kind =>
        match parseAttrFlags kind prev.parseTypeStrF rest [(kKind, .str name)] with
        | .error e => .error e
        | .ok config => prev.fromConfigF config

/-- `TargetInternal::FromConfig` body: a user-supplied `features` entry trips
the leading `ICHECK`; `kind` is mandatory (`ValueError` when missing,
`TypeError` when not a string) and must not define both hooks (`ICHECK`);
the parser hook may rewrite the config and emit the feature map; then `tag`,
the key resolution, the recursive `host` construction and the attribute loop
run, followed by the `from_device` query, the kind defaults for missing
attributes, and the optional preprocessor. -/
def fromConfigBody (env : TargetEnv) (prev : Ctors) (config : ConfigMap) :
    Except TErr AttrVal :=
  if (lookupStr config kFeatures).isSome then .error .fatal
  else
    match lookupStr config kKind with
    | none => .error .valueError
    | some (.str kindName) =>
      match getTargetKind env kindName with
      | .error e => .error e
      | .ok kind =>
        if kind.preprocessor.isSome ∧ kind.targetParser.isSome then .error .fatal
        else
          match runTargetParserHook kind config with
          | .error e => .error e
          | .ok (config1, features) =>
            let config2 := eraseStr config1 kKind
            match
              (match lookupStr config2 kTag with
               | none => .ok (([] : Str), config2)
               | some (.str t) => .ok (t, eraseStr config2 kTag)
               | some _ => .error .typeError : Except TErr (Str × ConfigMap)) with
            | .error e => .error e
            | .ok (tag, config3) =>
              match resolveKeys config3 kind with
              | .error e => .error e
              | .ok keys =>
                let config4 := eraseStr config3 kKeys
                match
                  (match lookupStr config4 kHost with
                   | none => .ok (none, config4)
                   | some hv =>
                     match prev.dispatchOneF hv with
                     | .error e => .error e
                     | .ok h => .ok (some h, eraseStr config4 kHost) :
                    Except TErr (Option AttrVal × ConfigMap)) with
                | .error e => .error e
                | .ok (host, config5) =>
                  match parseConfigAttrs kind prev.parseTypeAnyF config5 with
                  | .error e => .error e
                  | .ok attrs0 =>
                    match handleFromDevice env kind attrs0 with
                    | .error e => .error e
                    | .ok attrs1 =>
                      match runPreprocessor kind (mergeMissing attrs1 kind.key2default) with
                      | .error e => .error e
                      | .ok attrsF =>
                        .ok (.target kind.name host tag keys attrsF features)
    | some _ => .error .typeError

/-- `TargetInternal::ParseType` (raw string overload) body: the text is
decoded with `Interpret`, then dispatched on the schema — integer/boolean
via stream extraction with the `true` / `false` fallback, strings trimmed of
spaces, nested targets through the full string constructor, arrays split on
commas with per-element recursion, and any other schema a `TypeError`. -/
def parseTypeStrBody (prev : Ctors) (s : Str) (info : VType) : Except TErr AttrVal :=
  let interp := interpret s
  match info with
  | .int =>
    match parseTargetInt interp with
    | .error e => .error e
    | .ok v => .ok (.int v)
  | .bool =>
    match parseTargetInt interp with
    | .error e => .error e
    | .ok v => .ok (.bool (decide (v ≠ 0)))
  | .str => .ok (.str (trimSpaces interp))
  | .target => prev.fromStringF interp
  | .arr elemTy =>
    match splitString interp ',' with
    | .error e => .error e
    | .ok parts =>
      match parseElems (fun sub => prev.parseTypeStrF sub elemTy) parts with
      | .error e => .error e
      | .ok elems => .ok (.arr elems)
  | .map _ _ => .error .typeError

/-- `TargetInternal::ParseType` (dynamic value overload) body: scalars
require the exact stored type; a target schema accepts an existing target, a
string (through `FromString`) or a string-keyed map (through `FromConfig`);
arrays and maps recurse per element; everything else is a `TypeError`. -/
def parseTypeAnyBody (prev : Ctors) (obj : AttrVal) (info : VType) : Except TErr AttrVal :=
  match info with
  | .int =>
    match obj with
    | .int i => .ok (.int i)
    | _ => .error .typeError
  | .bool =>
    match obj with
    | .bool b => .ok (.bool b)
    | _ => .error .typeError
  | .str =>
    match obj with
    | .str s => .ok (.str s)
    | _ => .error .typeError
  | .target =>
    match obj with
    | .target k h t ks a f => .ok (.target k h t ks a f)
    | .str s => prev.fromStringF s
    | .map kvs =>
      match asStrMap (.map kvs) with
      | some cfg => prev.fromConfigF cfg
      | none => .error .typeError
    | _ => .error .typeError
  | .arr elemTy =>
    match obj with
    | .arr elems =>
      match parseAnyElems (fun e0 => prev.parseTypeAnyF e0 elemTy) elems with
      | .error e => .error e
      | .ok out => .ok (.arr out)
    | _ => .error .typeError
  | .map kTy vTy =>
    match obj with
    | .map kvs =>
      match parseMapEntries (fun e0 => prev.parseTypeAnyF e0 kTy)
          (fun e0 => prev.parseTypeAnyF e0 vTy) kvs with
      | .error e => .error e
      | .ok out => .ok (.map out)
    | _ => .error .typeError

/-- `TargetInternal::ConstructorDispatcher` body, single-argument form, as
invoked on the `host` config entry: an existing target is copied, a string
or a string-keyed map goes through the respective `Target` constructor
(which rethrows caught errors with kind `ValueError`), anything else is
`LOG(FATAL)`. -/
def dispatchOneBody (prev : Ctors) (v : AttrVal) : Except TErr AttrVal :=
  match v with
  | .target k h t ks a f => .ok (.target k h t ks a f)
  | .str s => wrapCtorErr (prev.fromStringF s)
  | .map kvs =>
    match asStrMap (.map kvs) with
    | some cfg => wrapCtorErr (prev.fromConfigF cfg)
    | none => .error .fatal
  | _ => .error .fatal

/-- One fuel level of the constructors, every recursive call going through
`prev`. -/
def ctorsStep (env : TargetEnv) (prev : Ctors) : Ctors :=
  { fromStringF := fromStringBody env prev
    fromConfigStringF := fromConfigStringBody env prev
    fromRawStringF := fromRawStringBody env prev
    fromConfigF := fromConfigBody env prev
    parseTypeStrF := parseTypeStrBody prev
    parseTypeAnyF := parseTypeAnyBody prev
    dispatchOneF := dispatchOneBody prev }

/-- The constructor bundle at a given fuel level. -/
def ctors (env : TargetEnv) : Nat → Ctors
  | 0 => ctorsZero
  | fuel + 1 => ctorsStep env (ctors env fuel)

/-- `TargetInternal::FromString` at a fuel level. -/
def fromString (env : TargetEnv) (fuel : Nat) (s : Str) : Except TErr AttrVal :=
  (ctors env fuel).fromStringF s

/-- `TargetInternal::FromConfigString` at a fuel level. -/
def fromConfigString (env : TargetEnv) (fuel : Nat) (s : Str) : Except TErr AttrVal :=
  (ctors env fuel).fromConfigStringF s

/-- `TargetInternal::FromRawString` at a fuel level. -/
def fromRawString (env : TargetEnv) (fuel : Nat) (s : Str) : Except TErr AttrVal :=
  (ctors env fuel).fromRawStringF s

/-- `TargetInternal::FromConfig` at a fuel level. -/
def fromConfig (env : TargetEnv) (fuel : Nat) (config : ConfigMap) : Except TErr AttrVal :=
  (ctors env fuel).fromConfigF config

/-- `TargetInternal::ParseType` (raw string overload) at a fuel level. -/
def parseTypeStr (env : TargetEnv) (fuel : Nat) (s : Str) (info : VType) : Except TErr AttrVal :=
  (ctors env fuel).parseTypeStrF s info

/-- `TargetInternal::ParseType` (dynamic value overload) at a fuel level. -/
def parseTypeAny (env : TargetEnv) (fuel : Nat) (obj : AttrVal) (info : VType) :
    Except TErr AttrVal :=
  (ctors env fuel).parseTypeAnyF obj info

/-- The single-argument `ConstructorDispatcher` at a fuel level. -/
def dispatchOne (env : TargetEnv) (fuel : Nat) (v : AttrVal) : Except TErr AttrVal :=
  (ctors env fuel).dispatchOneF v

/-! ## Structural and observational equality of values -/

mutual

/-- Structural equality of values (the tree-equality used by the reflection
layer). -/
def attrValBeq : AttrVal → AttrVal → Bool
  | .null, .null => true
  | .int a, .int b => decide (a = b)
  | .bool a, .bool b => decide (a = b)
  | .str a, .str b => decide (a = b)
  | .arr as, .arr bs => valListBeq as bs
  | .map as, .map bs => valPairListBeq as bs
  | .target k1 h1 t1 ks1 a1 f1, .target k2 h2 t2 ks2 a2 f2 =>
    decide (k1 = k2) && optValBeq h1 h2 && decide (t1 = t2) && decide (ks1 = ks2) &&
      namedListBeq a1 a2 && namedListBeq f1 f2
  | _, _ => false

/-- Structural equality on value lists. -/
def valListBeq : List AttrVal → List AttrVal → Bool
  | [], [] => true
  | a :: as, b :: bs => attrValBeq a b && valListBeq as bs
  | _, _ => false

/-- Structural equality on value-pair lists. -/
def valPairListBeq : List (AttrVal × AttrVal) → List (AttrVal × AttrVal) → Bool
  | [], [] => true
  | (k1, v1) :: as, (k2, v2) :: bs =>
    attrValBeq k1 k2 && attrValBeq v1 v2 && valPairListBeq as bs
  | _, _ => false

/-- Structural equality on optional values. -/
def optValBeq : Option AttrVal → Option AttrVal → Bool
  | none, none => true
  | some a, some b => attrValBeq a b
  | _, _ => false

/-- Structural equality on string-keyed pair lists. -/
def namedListBeq : List (Str × AttrVal) → List (Str × AttrVal) → Bool
  | [], [] => true
  | (k1, v1) :: as, (k2, v2) :: bs =>
    decide (k1 = k2) && attrValBeq v1 v2 && namedListBeq as bs
  | _, _ => false

end

/-- Equality of two attribute maps as maps: the same lookup result on every
key of either side (the iteration order of the C++ hash map is not
observable). -/
def attrsEquiv (a b : ConfigMap) : Bool :=
  (a.map Prod.fst).all (fun n => optValBeq (lookupStr a n) (lookupStr b n)) &&
  (b.map Prod.fst).all (fun n => optValBeq (lookupStr a n) (lookupStr b n))

/-- Observational equality of two targets in the sense of the round-trip
claim: same kind, same tag, same keys (ordered), same attributes (as a map)
and same host. -/
def observEq (x y : AttrVal) : Bool :=
  match x, y with
  | .target k1 h1 t1 ks1 a1 _, .target k2 h2 t2 ks2 a2 _ =>
    decide (k1 = k2) && decide (t1 = t2) && decide (ks1 = ks2) &&
      attrsEquiv a1 a2 && optValBeq h1 h2
  | _, _ => false

/-! ## The thread-local context stack

`Target::EnterWithScope` / `ExitWithScope` operate on the per-thread
`std::stack<Target>`; the stack of one thread is modelled as an explicit
list (head = top) of object identities, since `ExitWithScope` compares with
`same_as`, which is pointer identity, not value equality. -/

/-- `Target::EnterWithScope`: push, always legal. -/
def enterWithScope (t : Nat) (stack : List Nat) : List Nat := t :: stack

/-- `Target::ExitWithScope`: `ICHECK`s that the stack is non-empty and that
its top is the very object being exited, then pops; `none` models the fatal
`ICHECK` failure. -/
def exitWithScope (t : Nat) (stack : List Nat) : Option (List Nat) :=
  match stack with
  | [] => none
  | top :: rest => if top = t then some rest else none

/-- `Target::Current`: the top when non-empty; on an empty stack, an
explicitly undefined target when allowed, otherwise a fatal `ICHECK`. -/
def currentTarget (allowNotDefined : Bool) (stack : List Nat) : Option (Option Nat) :=
  match stack with
  | top :: _ => some (some top)
  | [] => if allowNotDefined then some none else none

/-! ## Reference definitions written from the claim wording -/

/-- Interior scan following the wording of the quoting claim: an escape
character toggles escaping for exactly the next character, and no unescaped
interior quote may appear.  A lone escape at the end of the interior escapes
the closing quote, about which the claim says nothing, so it is accepted
here. -/
def noUnescapedQuoteClaim : Str → Bool
  | [] => true
  | c :: rest =>
    if c = escapeChar then
      match rest with
      | [] => true
      | _ :: rest2 => noUnescapedQuoteClaim rest2
    else if c = quoteChar then false
    else noUnescapedQuoteClaim rest

/-- The claim wording of `IsFullyQuoted`: length at least 2, first and last
characters are quotes, no unescaped interior quote. -/
def isQuotedClaimSpec (s : Str) : Bool :=
  decide (2 ≤ s.length) && decide (s.head? = some quoteChar) &&
    decide (s.getLast? = some quoteChar) && noUnescapedQuoteClaim ((s.drop 1).dropLast)

/-- Interior scan of the corrected characterization: as in the claim, but a
lone trailing escape (which would escape the closing quote) disqualifies the
string. -/
def interiorOK : Str → Bool
  | [] => true
  | [c] => decide (c ≠ escapeChar) && decide (c ≠ quoteChar)
  | c :: c2 :: rest =>
    if c = escapeChar then interiorOK rest
    else decide (c ≠ quoteChar) && interiorOK (c2 :: rest)

/-- The amended characterization of `IsQuoted`: length at least 2, enclosing
quotes, no unescaped interior quote, and the closing quote itself not
escaped. -/
def isQuotedSpecAmended (s : Str) : Bool :=
  decide (2 ≤ s.length) && decide (s.head? = some quoteChar) &&
    decide (s.getLast? = some quoteChar) && interiorOK ((s.drop 1).dropLast)

/-- The claim wording of the token splitter: an escape character and the
character following it are copied through as a unit — before anything else
is considered —, an unquoted separator splits, a quote character toggles the
quoted region, and empty tokens are dropped. -/
def splitSpecLoop (sep : Char) : Str → Str → Bool → Except TErr (List Str)
  | [], word, quoted =>
    if quoted then .error .fatal
    else if word = [] then .ok [] else .ok [word]
  | c :: rest, word, quoted =>
    if c = escapeChar then
      match rest with
      | c2 :: rest2 => splitSpecLoop sep rest2 (word ++ [escapeChar, c2]) quoted
      | [] => splitSpecLoop sep [] (word ++ [c]) quoted
    else if c = sep ∧ quoted = false then
      Except.map (fun xs => if word = [] then xs else word :: xs) (splitSpecLoop sep rest [] false)
    else if c = quoteChar then
      splitSpecLoop sep rest (word ++ [quoteChar]) (!quoted)
    else
      splitSpecLoop sep rest (word ++ [c]) quoted

/-- Top level of the claim wording of the splitter. -/
def splitSpecString (s : Str) (sep : Char) : Except TErr (List Str) :=
  splitSpecLoop sep s [] false

/-- The claim wording of the key/value flag parser. -/
def parseKVPairSpec (s sNext : Str) : Except TErr (Nat × Str × Str) :=
  match s.span (fun c => decide (c ≠ '=')) with
  | (key, '=' :: value) =>
    if key = [] ∨ value = [] then .error .valueError else .ok (1, key, value)
  | _ =>
    if sNext = [] then .ok (1, s, ['1'])
    else if sNext.head? = some '-' then .ok (1, s, ['1'])
    else .ok (2, s, sNext)

/-- The claim wording of the key resolution: explicit keys verbatim,
otherwise the kind default key list; in both cases a string `device` value
is appended as an extra key; finally duplicates are removed keeping first
occurrences. -/
def resolveKeysClaimSpec (config : ConfigMap) (kind : TargetKindInfo) :
    Except TErr (List Str) :=
  match lookupStr config kKeys with
  | some (.arr es) =>
    match extractStrKeys es with
    | .error e => .error e
    | .ok userKeys => .ok (dedupKeys (userKeys ++ deviceKeyPart config))
  | some _ => .error .typeError
  | none => .ok (dedupKeys (kind.defaultKeys ++ deviceKeyPart config))

/-- The amended wording of the key resolution: identical except that
without explicit keys the device key is *prepended* to the kind default key
list rather than appended after it. -/
def resolveKeysSpecAmended (config : ConfigMap) (kind : TargetKindInfo) :
    Except TErr (List Str) :=
  match lookupStr config kKeys with
  | some (.arr es) =>
    match extractStrKeys es with
    | .error e => .error e
    | .ok userKeys => .ok (dedupKeys (userKeys ++ deviceKeyPart config))
  | some _ => .error .typeError
  | none => .ok (dedupKeys (deviceKeyPart config ++ kind.defaultKeys))

/-! ## Concrete fixtures for witnesses and counterexamples -/

/-- An environment with nothing registered. -/
def emptyEnv : TargetEnv :=
  { kinds := fun _ => none
    tags := fun _ => none
    loader := none
    deviceAPI := fun _ _ => none }

/-- A concrete hook-free kind resembling the registered `llvm` kind: default
key `cpu`, with schemas for `keys`, `device`, `mtriple`, `mattr` and
`opt-level`. -/
def llvmKind : TargetKindInfo :=
  { name := "llvm".data
    defaultKeys := ["cpu".data]
    key2vtype :=
      [("keys".data, .arr .str), ("device".data, .str), ("mtriple".data, .str),
       ("mattr".data, .arr .str), ("opt-level".data, .int)]
    key2default := []
    defaultDeviceType := 1
    targetParser := none
    preprocessor := none }

/-- An environment registering exactly `llvmKind`, no tags, no loader, no
device API. -/
def llvmEnv : TargetEnv :=
  { kinds := fun n => if n = "llvm".data then some llvmKind else none
    tags := fun _ => none
    loader := none
    deviceAPI := fun _ _ => none }

/-! ## Round-trip safety conditions

The canonical string form drops information in several situations
(empty-valued attributes, hosts, tags, array elements with separators…); the
following decidable conditions delimit the targets whose canonical string
re-parses to an observationally equal target. -/

/-- A character that survives tokenisation unprotected: not a space, comma,
quote or escape. -/
def plainChar (c : Char) : Bool :=
  decide (c ≠ ' ' ∧ c ≠ ',' ∧ c ≠ quoteChar ∧ c ≠ escapeChar)

/-- A non-empty string of plain characters (kind names, keys). -/
def plainStr (s : Str) : Bool := decide (s ≠ []) && s.all plainChar

/-- A safe attribute name: non-empty, free of spaces, quotes, escapes and
equals signs, not beginning with a dash, and distinct from the reserved
config fields consumed structurally by `FromConfig`. -/
def attrNameOK (n : Str) : Bool :=
  decide (n ≠ []) &&
  n.all (fun c => decide (c ≠ ' ' ∧ c ≠ quoteChar ∧ c ≠ escapeChar ∧ c ≠ '=')) &&
  decide (n.head? ≠ some '-') &&
  decide (n ≠ kKind ∧ n ≠ kTag ∧ n ≠ kKeys ∧ n ≠ kHost ∧ n ≠ kFeatures ∧ n ≠ kFromDevice)

/-- A string attribute value that re-parses exactly: non-empty and without
leading or trailing spaces (the parser trims them). -/
def strValOK (s : Str) : Bool :=
  decide (s ≠ []) && decide (s.head? ≠ some ' ') && decide (s.getLast? ≠ some ' ')

/-- An array element that re-parses exactly: an integer, a boolean, or a
non-empty string free of spaces and commas. -/
def elemValOK : AttrVal → VType → Bool
  | .int _, .int => true
  | .bool _, .bool => true
  | .str s, .str => decide (s ≠ []) && s.all (fun c => decide (c ≠ ' ' ∧ c ≠ ','))
  | _, _ => false

/-- A round-trip-safe attribute value of a given schema. -/
def valOK : AttrVal → VType → Bool
  | .int _, .int => true
  | .bool _, .bool => true
  | .str s, .str => strValOK s
  | .arr es, .arr ety => !es.isEmpty && es.all (fun e => elemValOK e ety)
  | _, _ => false

/-- A round-trip-safe attribute: safe name, a schema entry in the kind, and
a safe value of that schema. -/
def attrOK (kind : TargetKindInfo) (p : Str × AttrVal) : Bool :=
  attrNameOK p.1 &&
  (match lookupStr kind.key2vtype p.1 with
   | some ty => valOK p.2 ty
   | none => false)

/-- Round-trip-safe keys: non-empty, plain, already de-duplicated. -/
def keysOK (ks : List Str) : Bool :=
  decide (ks ≠ []) && ks.all plainStr && decide (dedupKeys ks = ks)

/-- Attribute names are pairwise distinct. -/
def namesNodup (attrs : ConfigMap) : Bool :=
  decide (dedupKeys (attrs.map Prod.fst) = attrs.map Prod.fst)

/-- A `device` attribute, when present, is a string already recorded among
the keys (as the config assembler guarantees on canonical targets). -/
def deviceOK (attrs : ConfigMap) (ks : List Str) : Bool :=
  match lookupStr attrs kDeviceName with
  | none => true
  | some (.str d) => decide (d ∈ ks)
  | some _ => false

/-- Every schema default of the kind is already materialised among the
attributes (as the config assembler guarantees on canonical targets). -/
def defaultsOK (kind : TargetKindInfo) (attrs : ConfigMap) : Bool :=
  kind.key2default.all (fun p => (lookupStr attrs p.1).isSome)

/-- The round-trip safety conditions of a canonical target with respect to
its (hook-free) kind: plain kind name not starting with a brace, no host,
empty tag, safe keys, distinct safe attribute names with safe values, the
device key recorded, the defaults materialised. -/
def canonWF (kind : TargetKindInfo) : AttrVal → Bool
  | .target kname host tag ks attrs _ =>
    plainStr kname && decide (kname.head? ≠ some lbraceChar) &&
    host.isNone && decide (tag = []) && keysOK ks &&
    namesNodup attrs && attrs.all (attrOK kind) && deviceOK attrs ks &&
    defaultsOK kind attrs
  | _ => false

/-- The round-trip example target: kind `llvm`, keys `cpu, arm`, an integer
and a string attribute. -/
def c1ExTarget : AttrVal :=
  .target "llvm".data none [] ["cpu".data, "arm".data]
    [("opt-level".data, .int 3), ("mtriple".data, .str "x86-64".data)] []

/-- The counterexample target: canonical (it is parsed from the raw flag
string `llvm -mtriple=''`) but carrying an empty string attribute, which the
stringifier drops. -/
def c1CexTarget : AttrVal :=
  .target "llvm".data none [] ["cpu".data] [("mtriple".data, .str [])] []

/-- The flag token rendered for one attribute entry. -/
def entryTok (k vs : Str) : Str := '-' :: k ++ '=' :: vs

/-- `tok` is consumed by the splitter as part of the current word, leaving
the quoted-region flag off. -/
def ConsumesTok (sep : Char) (tok : Str) : Prop :=
  ∀ (v word : Str), splitLoop sep (tok ++ v) word false = splitLoop sep v (word ++ tok) false

/-- `tok` is consumed by the splitter inside a quoted region. -/
def ConsumesInQuote (sep : Char) (tok : Str) : Prop :=
  ∀ (v word : Str), splitLoop sep (tok ++ v) word true = splitLoop sep v (word ++ tok) true

/-- The interpretation loop maps the prefix `tok` to `out` and proceeds in
the initial state. -/
def InterpConsumes (tok out : Str) : Prop :=
  ∀ v, interpretLoop (tok ++ v) false false = out ++ interpretLoop v false false

/-! # Theorems -/

/-! ## Interpret and Uninterpret -/

/-- The escape and the quote character differ. -/
theorem escape_ne_quote : escapeChar ≠ quoteChar := by decide

/-- A string whose first character is not a quote is not fully quoted. -/
theorem isQuoted_of_head_ne (s : Str) (h : s.head? ≠ some quoteChar) :
    isQuoted s = false := by
  unfold isQuoted
  by_cases h1 : s.length < 2
  · rw [if_pos h1]
  · rw [if_neg h1, if_pos h]

/-- `Uninterpret` output of a non-empty string starts with the escape
character or with a plain non-quote character, hence is never fully
quoted. -/
theorem isQuoted_uninterpret (s : Str) : isQuoted (uninterpret s) = false := by
  cases s with
  | nil => rfl
  | cons c rest =>
    apply isQuoted_of_head_ne
    by_cases h : c = escapeChar ∨ c = quoteChar
    · simp only [uninterpret, if_pos h, List.head?_cons]
      decide
    · push_neg at h
      simp only [uninterpret, if_neg (by tauto : ¬ (c = escapeChar ∨ c = quoteChar)),
        List.head?_cons]
      simp [h.2]

/-- Main interpretation lemma: the interpretation loop undoes `Uninterpret`
on a prefix, starting and ending outside any escape or quoted region. -/
theorem interpretLoop_uninterpret_append (s rest : Str) :
    interpretLoop (uninterpret s ++ rest) false false =
      s ++ interpretLoop rest false false := by
  induction s with
  | nil => simp [uninterpret]
  | cons c s ih =>
    by_cases h : c = escapeChar ∨ c = quoteChar
    · have h1 : uninterpret (c :: s) = escapeChar :: c :: uninterpret s := by
        simp [uninterpret, h]
      rw [h1]
      simp only [List.cons_append, interpretLoop, if_pos rfl, if_true, if_false]
      simp [interpretLoop, ih]
    · push_neg at h
      have h1 : uninterpret (c :: s) = c :: uninterpret s := by
        simp [uninterpret, h.1, h.2]
      rw [h1]
      simp [interpretLoop, h.1, h.2, ih]

/-- The uninterpretation of a non-empty string is non-empty. -/
theorem uninterpret_ne_nil (c : Char) (s : Str) : uninterpret (c :: s) ≠ [] := by
  by_cases h : c = escapeChar ∨ c = quoteChar <;> simp [uninterpret, h]

/-- `Interpret` is a left inverse of `Uninterpret`. -/
theorem interpret_uninterpret (s : Str) : interpret (uninterpret s) = s := by
  have hmain : interpretLoop (uninterpret s) false false = s := by
    simpa [interpretLoop] using interpretLoop_uninterpret_append s []
  unfold interpret
  rw [isQuoted_uninterpret]
  cases s with
  | nil => simp [uninterpret]
  | cons c rest =>
    rw [if_neg (uninterpret_ne_nil c rest)]
    simpa using hmain

/-- Claim C2: for every string `s`, including strings containing the quote
character, the escape character, or both, `Interpret (Uninterpret s) = s`. -/
theorem c2_interpret_uninterpret (s : Str) : interpret (uninterpret s) = s :=
  interpret_uninterpret s

/-! ## IsQuoted (claim C3) -/

/-- The interior scan of `IsQuoted` agrees with the unit-based corrected
characterization. -/
theorem isQuotedLoop_eq_interiorOK : ∀ l : Str, isQuotedLoop l false = interiorOK l
  | [] => rfl
  | [c] => by
    by_cases h1 : c = escapeChar
    · subst h1; decide
    · by_cases h2 : c = quoteChar
      · subst h2; decide
      · simp [isQuotedLoop, interiorOK, h1, h2]
  | c :: c2 :: rest => by
    by_cases h1 : c = escapeChar
    · subst h1
      have step : isQuotedLoop (escapeChar :: c2 :: rest) false = isQuotedLoop rest false := by
        simp [isQuotedLoop]
      rw [step, isQuotedLoop_eq_interiorOK rest]
      simp [interiorOK]
    · by_cases h2 : c = quoteChar
      · subst h2
        simp [isQuotedLoop, interiorOK, h1]
      · have step : isQuotedLoop (c :: c2 :: rest) false = isQuotedLoop (c2 :: rest) false := by
          simp [isQuotedLoop, h1, h2]
        rw [step, isQuotedLoop_eq_interiorOK (c2 :: rest)]
        simp [interiorOK, h1, h2]

/-- Claim C3, amended: `IsQuoted s` holds exactly when `s` has length at
least 2, starts and ends with the quote character, and its interior contains
no unescaped quote **and does not end in an active escape** (otherwise the
closing quote would be escaped — this last condition is missing from the
claim); the two examples of the claim hold. -/
theorem c3_isQuoted_amended :
    (∀ s : Str, isQuoted s = isQuotedSpecAmended s) ∧
    isQuoted "'a\\'b'".data = true ∧ isQuoted "'a'b'".data = false := by
  refine ⟨fun s => ?_, by decide, by decide⟩
  unfold isQuoted isQuotedSpecAmended
  split_ifs with h1 h2 h3
  · have : ¬ (2 ≤ s.length) := by omega
    simp [this]
  · simp [h2]
  · simp [h3]
  · have e1 : decide (2 ≤ s.length) = true := by
      simp; omega
    have e2 : decide (s.head? = some quoteChar) = true := by
      simpa using not_not.mp h2
    have e3 : decide (s.getLast? = some quoteChar) = true := by
      simpa using not_not.mp h3
    rw [e1, e2, e3, isQuotedLoop_eq_interiorOK]
    simp

/-- Claim C3 counterexample: the string consisting of quote, `a`, escape,
quote satisfies the claim as literally stated (length 4, enclosed in quotes,
no unescaped quote strictly inside) yet `IsQuoted` rejects it, because the
scan ends in escaping state — the closing quote is escaped. -/
theorem c3_counterexample :
    isQuotedClaimSpec (quoteChar :: 'a' :: escapeChar :: [quoteChar]) = true ∧
    isQuoted (quoteChar :: 'a' :: escapeChar :: [quoteChar]) = false := by decide

/-! ## Trailing escapes in Interpret (claim C7) -/

/-- Claim C7 concerns inputs ending in an unmatched escape: the claim (and
the comment block inside `TargetInternal::Interpret` itself) say such input
is disallowed and fatal, but the C++ loop has no check at all: it simply
ends with the `escaping` flag set, silently dropping the trailing escape.
`Interpret` is total and returns normally on these inputs. -/
theorem c7_trailing_escape_not_fatal :
    interpret [escapeChar] = [] ∧
    interpret ('a' :: 'b' :: [escapeChar]) = ['a', 'b'] ∧
    interpret ('a' :: escapeChar :: escapeChar :: [escapeChar]) = ['a', escapeChar] := by
  decide

/-! ## The context stack (claim C8) -/

/-- Claim C8: `Exit t` succeeds (popping the top) exactly when the stack is
non-empty and its top is the same object as `t`; in particular the sequence
`Enter A; Enter B; Exit A` is a fatal identity mismatch. -/
theorem c8_exit_scope :
    (∀ (t : Nat) (stack : List Nat),
      (exitWithScope t stack).isSome = true ↔ stack ≠ [] ∧ stack.head? = some t) ∧
    (∀ (t : Nat) (stack : List Nat), stack.head? = some t →
      exitWithScope t stack = some stack.tail) ∧
    exitWithScope 0 (enterWithScope 1 (enterWithScope 0 [])) = none := by
  refine ⟨?_, ?_, rfl⟩
  · intro t stack
    cases stack with
    | nil => simp [exitWithScope]
    | cons top rest =>
      by_cases h : top = t
      · subst h; simp [exitWithScope]
      · simp only [exitWithScope, if_neg h]
        simp [h]
  · intro t stack h
    cases stack with
    | nil => simp at h
    | cons top rest =>
      obtain rfl : top = t := by simpa using h
      simp [exitWithScope]

/-- Witness for claim C8 at a concrete stack. -/
theorem c8_exit_scope_witness : exitWithScope 5 [5, 9] = some [9] :=
  c8_exit_scope.2.1 5 [5, 9] rfl

/-! ## Features are rejected from user configs (claim C9) -/

/-- Claim C9: a config containing the key `features` trips the leading
`ICHECK` of `FromConfig` before any other processing (whatever the
environment and the rest of the config), and a feature map arises only from
a kind `target_parser` hook — without such a hook the hook step returns the
config unchanged with an empty feature map. -/
theorem c9_features_rejected :
    (∀ (env : TargetEnv) (fuel : Nat) (config : ConfigMap),
        (lookupStr config kFeatures).isSome = true →
        fromConfig env (fuel + 1) config = .error .fatal) ∧
    (∀ (kind : TargetKindInfo) (config : ConfigMap), kind.targetParser = none →
        runTargetParserHook kind config = .ok (config, [])) := by
  constructor
  · intro env fuel config h
    simp [fromConfig, ctors, ctorsStep, fromConfigBody, h]
  · intro kind config h
    simp [runTargetParserHook, h]

/-- Witness for claim C9 at a concrete config and kind. -/
theorem c9_features_witness :
    fromConfig emptyEnv 1 [(kFeatures, AttrVal.null)] = .error .fatal ∧
    runTargetParserHook llvmKind [] = .ok ([], []) :=
  ⟨c9_features_rejected.1 emptyEnv 0 [(kFeatures, AttrVal.null)] rfl,
   c9_features_rejected.2 llvmKind [] rfl⟩

/-! ## The empty raw string (claim C10) -/

/-- Claim C10: provided the empty string is not a registered tag,
constructing a target from the empty string reaches `FromRawString`, whose
`ICHECK_GT(target_str.length(), 0)` fails fatally before any tokenisation,
so no target is ever produced. -/
theorem c10_empty_raw_string_fails :
    ∀ (env : TargetEnv) (fuel : Nat), env.tags [] = none →
      fromString env (fuel + 2) [] = .error .fatal := by
  intro env fuel h
  simp [fromString, ctors, ctorsStep, fromStringBody, fromRawStringBody, h]

/-- Witness for claim C10 in the empty environment. -/
theorem c10_empty_raw_string_witness : fromString emptyEnv 2 [] = .error .fatal :=
  c10_empty_raw_string_fails emptyEnv 0 rfl

/-! ## The key/value flag parser (claim C5) -/

/-- After `dropWhile (· ≠ c)`, either the sought character heads the
remainder (when the list contains it) or the remainder is empty. -/
theorem dropWhile_ne_spec (c : Char) : ∀ s : Str,
    (s.contains c = true → ∃ v, s.dropWhile (fun x => decide (x ≠ c)) = c :: v) ∧
    (s.contains c = false → s.dropWhile (fun x => decide (x ≠ c)) = [])
  | [] => ⟨by simp, by simp⟩
  | a :: rest => by
    by_cases hac : a = c
    · subst hac
      refine ⟨fun _ => ⟨rest, ?_⟩, fun h => ?_⟩
      · rw [List.dropWhile_cons, if_neg (by simp)]
      · simp at h
    · have hstep : List.dropWhile (fun x => decide (x ≠ c)) (a :: rest) =
          List.dropWhile (fun x => decide (x ≠ c)) rest := by
        rw [List.dropWhile_cons, if_pos (by simpa using hac)]
      have ih := dropWhile_ne_spec c rest
      constructor
      · intro h
        simp at h
        have hmem : c ∈ rest := by
          rcases h with h1 | h1
          · exact absurd h1.symm hac
          · exact h1
        obtain ⟨v, hv⟩ := ih.1 (by simpa using hmem)
        exact ⟨v, hstep.trans hv⟩
      · intro h
        simp at h
        exact hstep.trans (ih.2 (by simpa using h.2))

/-- Claim C5: the key/value flag parser coincides with the claimed
behaviour — split at the first equals sign with non-empty halves (consuming
one token), else take a following non-dash token as the value (consuming
two), else the implicit boolean value `1` (consuming one). -/
theorem c5_parseKVPair (s sNext : Str) : parseKVPair s sNext = parseKVPairSpec s sNext := by
  unfold parseKVPair parseKVPairSpec
  rw [List.span_eq_take_drop]
  by_cases h : s.contains '=' = true
  · obtain ⟨v, hv⟩ := (dropWhile_ne_spec '=' s).1 h
    rw [if_pos h, hv]
    simp
  · have h' : s.contains '=' = false := by simpa using h
    have hd := (dropWhile_ne_spec '=' s).2 h'
    rw [if_neg h, hd]
    by_cases h1 : sNext = []
    · simp [h1]
    · by_cases h2 : sNext.head? = some '-' <;> simp [h1, h2]

/-! ## The token splitter (claim C4) -/

/-- For separators other than the quote and escape characters, the splitter
loop coincides with the claim wording (in which the escape unit is
considered before the separator). -/
theorem splitLoop_eq_spec (sep : Char) (hq : sep ≠ quoteChar) (he : sep ≠ escapeChar) :
    ∀ (n : Nat) (l word : Str) (quoted : Bool), l.length ≤ n →
      splitLoop sep l word quoted = splitSpecLoop sep l word quoted := by
  intro n
  induction n with
  | zero =>
    intro l word quoted hl
    obtain rfl := List.length_eq_zero.mp (Nat.le_zero.mp hl)
    rfl
  | succ n ihn =>
    intro l word quoted hl
    cases l with
    | nil => rfl
    | cons c rest =>
      simp only [List.length_cons, Nat.add_le_add_iff_right] at hl
      by_cases hce : c = escapeChar
      · subst hce
        have hns : ¬ (escapeChar = sep ∧ quoted = false) := fun hh => he hh.1.symm
        cases rest with
        | nil =>
          simp only [splitLoop, splitSpecLoop, if_neg hns, if_pos rfl]
        | cons c2 rest2 =>
          simp only [splitLoop, splitSpecLoop, if_neg hns, if_pos rfl]
          exact ihn rest2 (word ++ [escapeChar, c2]) quoted (by simp at hl ⊢; omega)
      · cases rest with
        | nil =>
          by_cases hcs : c = sep
          · cases quoted with
            | false =>
              have ih := ihn [] [] false (by simp)
              simp [splitLoop, splitSpecLoop, hcs, he, ih]
            | true =>
              have ih := ihn [] (word ++ [sep]) true (by simp)
              simp [splitLoop, splitSpecLoop, hcs, he, hq, ih]
          · by_cases hcq : c = quoteChar
            · have ih := ihn [] (word ++ [quoteChar]) (!quoted) (by simp)
              simp [splitLoop, splitSpecLoop, hcq, Ne.symm hq, escape_ne_quote.symm,
                Ne.symm he, ih]
            · have ih := ihn [] (word ++ [c]) quoted (by simp)
              simp [splitLoop, splitSpecLoop, hce, hcs, hcq, ih]
        | cons c2 rest2 =>
          have hlen2 : rest2.length ≤ n := by simp at hl; omega
          by_cases hcs : c = sep
          · cases quoted with
            | false =>
              have ih := ihn (c2 :: rest2) [] false hl
              simp [splitLoop, splitSpecLoop, hcs, he, ih]
            | true =>
              have ih := ihn (c2 :: rest2) (word ++ [sep]) true hl
              simp [splitLoop, splitSpecLoop, hcs, he, hq, ih]
          · by_cases hcq : c = quoteChar
            · have ih := ihn (c2 :: rest2) (word ++ [quoteChar]) (!quoted) hl
              simp [splitLoop, splitSpecLoop, hcq, Ne.symm hq, escape_ne_quote.symm,
                Ne.symm he, ih]
            · have ih := ihn (c2 :: rest2) (word ++ [c]) quoted hl
              simp [splitLoop, splitSpecLoop, hce, hcs, hcq, ih]

/-- Claim C4, amended: for every string and every separator other than the
quote and escape characters, `SplitString` behaves as the claim describes
(quote-aware splitting, escape pairs copied as units, empty tokens dropped);
the example with a quoted comma holds.  (For the reserved separators the
claim fails, see the counterexample.) -/
theorem c4_splitString_amended :
    (∀ (s : Str) (sep : Char), sep ≠ quoteChar → sep ≠ escapeChar →
        splitString s sep = splitSpecString s sep) ∧
    splitString "a,'b,c',d".data ',' = .ok ["a".data, "'b,c'".data, "d".data] :=
  ⟨fun s sep hq he => splitLoop_eq_spec sep hq he s.length s [] false le_rfl, rfl⟩

/-- Witness for claim C4 at a concrete string and separator. -/
theorem c4_splitString_witness :
    splitString "x\\,y".data ',' = splitSpecString "x\\,y".data ',' :=
  c4_splitString_amended.1 "x\\,y".data ',' (by decide) (by decide)

/-- Claim C4 counterexample: with the escape character itself as separator
(the claim quantifies over every separator), the code checks the separator
before the escape, so the escape character is treated as a separator instead
of starting a unit: `a\\b` splits into `a`, `b` rather than staying one
token. -/
theorem c4_splitString_counterexample :
    splitString ['a', escapeChar, 'b'] escapeChar = .ok [['a'], ['b']] ∧
    splitSpecString ['a', escapeChar, 'b'] escapeChar = .ok [['a', escapeChar, 'b']] ∧
    ([['a'], ['b']] : List Str) ≠ [['a', escapeChar, 'b']] :=
  ⟨rfl, rfl, by decide⟩

/-! ## Key resolution (claim C6) -/

/-- Claim C6, amended: with explicit keys the key list is the user array
(order preserved) with a string `device` value appended, then de-duplicated;
**without** explicit keys the device value comes first, followed by the kind
default keys (the claim said the device key is appended after the defaults),
then de-duplication.  The example config with explicit keys `[cpu]` and
device `arm` yields exactly `cpu, arm`. -/
theorem c6_resolveKeys_amended :
    (∀ (config : ConfigMap) (kind : TargetKindInfo),
        resolveKeys config kind = resolveKeysSpecAmended config kind) ∧
    fromConfig llvmEnv 3
        [(kKind, .str "llvm".data), (kKeys, .arr [.str "cpu".data]),
         (kDeviceName, .str "arm".data)]
      = .ok (.target "llvm".data none [] ["cpu".data, "arm".data]
          [(kDeviceName, .str "arm".data)] []) :=
  ⟨fun _ _ => rfl, rfl⟩

/-- Claim C6 counterexample: without explicit keys, the code pushes the
device key **before** the kind default keys (`DeviceKeyPart` runs between
the user-keys branch and the defaults branch), so a kind with default keys
`[cpu]` and a config with device `arm` yields `arm, cpu`, not the claimed
`cpu, arm`; the full constructor exhibits the same order. -/
theorem c6_resolveKeys_counterexample :
    resolveKeys [(kKind, .str "llvm".data), (kDeviceName, .str "arm".data)] llvmKind
      = .ok ["arm".data, "cpu".data] ∧
    resolveKeysClaimSpec [(kKind, .str "llvm".data), (kDeviceName, .str "arm".data)] llvmKind
      = .ok ["cpu".data, "arm".data] ∧
    (["arm".data, "cpu".data] : List Str) ≠ ["cpu".data, "arm".data] ∧
    fromConfig llvmEnv 3 [(kKind, .str "llvm".data), (kDeviceName, .str "arm".data)]
      = .ok (.target "llvm".data none [] ["arm".data, "cpu".data]
          [(kDeviceName, .str "arm".data)] []) :=
  ⟨rfl, rfl, by decide, rfl⟩

/-! ## Tokenisation lemmas for the round trip (claim C1) -/

/-- One-step unfolding of the splitter loop with an arbitrary tail. -/
theorem splitLoop_cons (sep c : Char) (rest word : Str) (quoted : Bool) :
    splitLoop sep (c :: rest) word quoted =
      if c = sep ∧ quoted = false then
        Except.map (fun xs => if word = [] then xs else word :: xs) (splitLoop sep rest [] false)
      else if c = escapeChar then
        (match rest with
         | c2 :: rest2 => splitLoop sep rest2 (word ++ [escapeChar, c2]) quoted
         | [] => splitLoop sep [] (word ++ [escapeChar]) quoted)
      else if c = quoteChar then splitLoop sep rest (word ++ [quoteChar]) (!quoted)
      else splitLoop sep rest (word ++ [c]) quoted := by
  cases rest <;> rfl

/-- The empty token is trivially consumed. -/
theorem consumesTok_nil (sep : Char) : ConsumesTok sep [] := by
  intro v word
  simp

/-- Token consumption composes over concatenation. -/
theorem consumesTok_append {sep : Char} {a b : Str}
    (ha : ConsumesTok sep a) (hb : ConsumesTok sep b) : ConsumesTok sep (a ++ b) := by
  intro v word
  rw [List.append_assoc, ha (b ++ v) word, hb v (word ++ a), List.append_assoc]

/-- A character other than the separator, quote and escape is consumed. -/
theorem consumesTok_char {sep c : Char} (h1 : c ≠ sep) (h2 : c ≠ quoteChar)
    (h3 : c ≠ escapeChar) : ConsumesTok sep [c] := by
  intro v word
  rw [List.singleton_append, splitLoop_cons]
  rw [if_neg (by simp [h1]), if_neg h3, if_neg h2]

/-- A string of characters free of separator, quote and escape is
consumed. -/
theorem consumesTok_plain {sep : Char} :
    ∀ s : Str, (∀ c ∈ s, c ≠ sep ∧ c ≠ quoteChar ∧ c ≠ escapeChar) → ConsumesTok sep s
  | [], _ => consumesTok_nil sep
  | c :: rest, h => by
    have hc := h c (by simp)
    have htail := consumesTok_plain rest (fun c2 hc2 => h c2 (by simp [hc2]))
    have := consumesTok_append (consumesTok_char hc.1 hc.2.1 hc.2.2) htail
    simpa using this

/-- Inside a quoted region, an `Uninterpret` image is consumed verbatim
(escape pairs as units, plain characters — separators included — copied). -/
theorem consumesInQuote_uninterpret {sep : Char} (hq : sep ≠ quoteChar)
    (he : sep ≠ escapeChar) : ∀ s : Str, ConsumesInQuote sep (uninterpret s)
  | [] => by intro v word; simp [uninterpret]
  | c :: rest => by
    have ih := consumesInQuote_uninterpret hq he rest
    intro v word
    by_cases hc : c = escapeChar ∨ c = quoteChar
    · rw [show uninterpret (c :: rest) = escapeChar :: c :: uninterpret rest by
        simp [uninterpret, hc]]
      rw [List.cons_append, List.cons_append, splitLoop_cons]
      rw [if_neg (by simp), if_pos rfl]
      show splitLoop sep (uninterpret rest ++ v) (word ++ [escapeChar, c]) true = _
      rw [show (escapeChar :: c :: uninterpret rest) = [escapeChar, c] ++ uninterpret rest
          from rfl]
      rw [ih v (word ++ [escapeChar, c]), List.append_assoc]
    · push_neg at hc
      rw [show uninterpret (c :: rest) = c :: uninterpret rest by simp [uninterpret, hc.1, hc.2]]
      rw [List.cons_append, splitLoop_cons]
      rw [if_neg (by simp), if_neg hc.1, if_neg hc.2]
      have := ih v (word ++ [c])
      rw [this, List.append_assoc]
      rfl

/-- Outside a quoted region, an `Uninterpret` image whose plain characters
avoid the separator is consumed verbatim. -/
theorem consumesTok_uninterpret {sep : Char} (hq : sep ≠ quoteChar)
    (he : sep ≠ escapeChar) :
    ∀ s : Str, (∀ c ∈ s, c ≠ sep) → ConsumesTok sep (uninterpret s)
  | [], _ => by intro v word; simp [uninterpret]
  | c :: rest, h => by
    have ih := consumesTok_uninterpret hq he rest (fun c2 hc2 => h c2 (by simp [hc2]))
    intro v word
    by_cases hc : c = escapeChar ∨ c = quoteChar
    · rw [show uninterpret (c :: rest) = escapeChar :: c :: uninterpret rest by
        simp [uninterpret, hc]]
      rw [List.cons_append, List.cons_append, splitLoop_cons]
      rw [if_neg (by simp [Ne.symm he]), if_pos rfl]
      show splitLoop sep (uninterpret rest ++ v) (word ++ [escapeChar, c]) false = _
      rw [show (escapeChar :: c :: uninterpret rest) = [escapeChar, c] ++ uninterpret rest
          from rfl]
      rw [ih v (word ++ [escapeChar, c]), List.append_assoc]
    · push_neg at hc
      have hcs : c ≠ sep := h c (by simp)
      rw [show uninterpret (c :: rest) = c :: uninterpret rest by simp [uninterpret, hc.1, hc.2]]
      rw [List.cons_append, splitLoop_cons]
      rw [if_neg (by simp [hcs]), if_neg hc.1, if_neg hc.2]
      have := ih v (word ++ [c])
      rw [this, List.append_assoc]
      rfl

/-- A fully quoted `Uninterpret` image is consumed as one unit: the opening
quote turns the quoted flag on, the escaped body is copied, the closing
quote turns it off. -/
theorem consumesTok_quoted {sep : Char} (hq : sep ≠ quoteChar) (he : sep ≠ escapeChar)
    (s : Str) : ConsumesTok sep (quoteStr (uninterpret s)) := by
  intro v word
  have hqe : quoteChar ≠ escapeChar := escape_ne_quote.symm
  rw [show quoteStr (uninterpret s) ++ v = quoteChar :: (uninterpret s ++ ([quoteChar] ++ v)) by
    simp [quoteStr]]
  rw [splitLoop_cons, if_neg (by simp [Ne.symm hq]), if_neg hqe, if_pos rfl]
  rw [show (!false) = true from rfl]
  rw [consumesInQuote_uninterpret hq he s ([quoteChar] ++ v) (word ++ [quoteChar])]
  rw [List.singleton_append, splitLoop_cons]
  rw [if_neg (by simp), if_neg hqe, if_pos rfl]
  simp [quoteStr]

/-- The terminal state of the splitter loop. -/
theorem splitLoop_nil (sep : Char) (word : Str) (quoted : Bool) :
    splitLoop sep [] word quoted =
      if quoted then .error .fatal else if word = [] then .ok [] else .ok [word] := rfl

/-- Running the splitter on the join of consumed non-empty tokens, starting
with an accumulated word, emits the word glued to the first token and then
the remaining tokens. -/
theorem splitLoop_joinRec {sep : Char} :
    ∀ (t : Str) (ts : List Str),
      (∀ x ∈ t :: ts, x ≠ [] ∧ ConsumesTok sep x) → ∀ word : Str,
      splitLoop sep (joinRec sep (t :: ts)) word false = .ok ((word ++ t) :: ts)
  | t, [], h, word => by
    have ht := h t (by simp)
    rw [joinRec, show (t : Str) = t ++ [] by simp, ht.2 [] word, splitLoop_nil]
    rw [if_neg (by simp), if_neg (by simp [ht.1])]
    simp
  | t, t2 :: ts, h, word => by
    have ht := h t (by simp)
    have ih := splitLoop_joinRec t2 ts (fun x hx => h x (List.mem_cons_of_mem t hx)) []
    rw [joinRec, show t ++ sep :: joinRec sep (t2 :: ts) =
      t ++ (sep :: joinRec sep (t2 :: ts)) from rfl]
    rw [ht.2 (sep :: joinRec sep (t2 :: ts)) word, splitLoop_cons]
    rw [if_pos ⟨rfl, rfl⟩, ih]
    rw [show ([] : Str) ++ t2 = t2 by simp]
    simp [Except.map, ht.1]

/-- Same as `splitLoop_joinRec` with one trailing separator appended (the
shape `TargetNode::str` produces when the attribute part is empty): the
trailing separator emits the last word and nothing more. -/
theorem splitLoop_joinRec_trailing {sep : Char} :
    ∀ (t : Str) (ts : List Str),
      (∀ x ∈ t :: ts, x ≠ [] ∧ ConsumesTok sep x) → ∀ word : Str,
      splitLoop sep (joinRec sep (t :: ts) ++ [sep]) word false = .ok ((word ++ t) :: ts)
  | t, [], h, word => by
    have ht := h t (by simp)
    rw [joinRec, ht.2 [sep] word, show ([sep] : Str) = sep :: [] from rfl, splitLoop_cons]
    rw [if_pos ⟨rfl, rfl⟩, splitLoop_nil]
    rw [if_neg (by simp), if_pos rfl]
    rw [show Except.map (fun xs => if word ++ t = [] then xs else (word ++ t) :: xs)
        (.ok ([] : List Str)) = .ok (if word ++ t = [] then [] else [word ++ t]) from rfl]
    rw [if_neg (by simp [ht.1])]
  | t, t2 :: ts, h, word => by
    have ht := h t (by simp)
    have ih := splitLoop_joinRec_trailing t2 ts (fun x hx => h x (List.mem_cons_of_mem t hx)) []
    rw [joinRec, show (t ++ sep :: joinRec sep (t2 :: ts)) ++ [sep] =
      t ++ (sep :: (joinRec sep (t2 :: ts) ++ [sep])) by simp]
    rw [ht.2 (sep :: (joinRec sep (t2 :: ts) ++ [sep])) word, splitLoop_cons]
    rw [if_pos ⟨rfl, rfl⟩, ih]
    rw [show ([] : Str) ++ t2 = t2 by simp]
    simp [Except.map, ht.1]

/-! ## Shape lemmas about Uninterpret images and interpretation -/

/-- Uninterpretation of a string without reserved characters is the
identity. -/
theorem uninterpret_plain : ∀ s : Str, (∀ c ∈ s, c ≠ escapeChar ∧ c ≠ quoteChar) →
    uninterpret s = s
  | [], _ => rfl
  | c :: rest, h => by
    have hc := h c (by simp)
    rw [uninterpret, if_neg (by tauto)]
    rw [uninterpret_plain rest (fun x hx => h x (by simp [hx]))]

/-- Characters of an uninterpretation are escapes or characters of the
original. -/
theorem mem_uninterpret : ∀ s : Str, ∀ c ∈ uninterpret s, c = escapeChar ∨ c ∈ s
  | [], c, hc => by simp [uninterpret] at hc
  | a :: rest, c, hc => by
    by_cases ha : a = escapeChar ∨ a = quoteChar
    · rw [show uninterpret (a :: rest) = escapeChar :: a :: uninterpret rest by
        simp [uninterpret, ha]] at hc
      simp only [List.mem_cons] at hc
      rcases hc with h1 | h1 | h1
      · exact Or.inl h1
      · exact Or.inr (by simp [h1])
      · rcases mem_uninterpret rest c h1 with h2 | h2
        · exact Or.inl h2
        · exact Or.inr (by simp [h2])
    · push_neg at ha
      rw [show uninterpret (a :: rest) = a :: uninterpret rest by
        simp [uninterpret, ha.1, ha.2]] at hc
      simp only [List.mem_cons] at hc
      rcases hc with h1 | h1
      · exact Or.inr (by simp [h1])
      · rcases mem_uninterpret rest c h1 with h2 | h2
        · exact Or.inl h2
        · exact Or.inr (by simp [h2])

/-- The head of a non-empty uninterpretation is the escape character or a
non-reserved character of the original. -/
theorem uninterpret_head (c : Char) (rest : Str) :
    (uninterpret (c :: rest)).head? = some escapeChar ∨
    ((uninterpret (c :: rest)).head? = some c ∧ c ≠ quoteChar ∧ c ≠ escapeChar) := by
  by_cases hc : c = escapeChar ∨ c = quoteChar
  · rw [show uninterpret (c :: rest) = escapeChar :: c :: uninterpret rest by
      simp [uninterpret, hc]]
    exact Or.inl rfl
  · push_neg at hc
    rw [show uninterpret (c :: rest) = c :: uninterpret rest by simp [uninterpret, hc.1, hc.2]]
    exact Or.inr ⟨rfl, hc.2, hc.1⟩

/-- Interpretation of a string without reserved characters is the
identity. -/
theorem interpret_plain (s : Str) (h : ∀ c ∈ s, c ≠ escapeChar ∧ c ≠ quoteChar) :
    interpret s = s := by
  conv_lhs => rw [← uninterpret_plain s h]
  exact interpret_uninterpret s

/-- A front `dropWhile` on spaces is the identity when the head is not a
space. -/
theorem dropWhile_space_id (s : Str) (h : s.head? ≠ some ' ') :
    s.dropWhile (fun c => decide (c = ' ')) = s := by
  cases s with
  | nil => rfl
  | cons c rest =>
    rw [List.dropWhile_cons, if_neg]
    simp only [List.head?_cons, ne_eq, Option.some.injEq] at h
    simp [h]

/-- Trimming is the identity without leading or trailing spaces. -/
theorem trimSpaces_of_ends (s : Str) (h1 : s.head? ≠ some ' ') (h2 : s.getLast? ≠ some ' ') :
    trimSpaces s = s := by
  unfold trimSpaces
  rw [dropWhile_space_id s h1, dropWhile_space_id s.reverse (by
    rw [List.head?_reverse]; exact h2), List.reverse_reverse]

/-- Trimming is the identity on space-free strings. -/
theorem trimSpaces_of_no_space (s : Str) (h : ∀ c ∈ s, c ≠ ' ') : trimSpaces s = s := by
  apply trimSpaces_of_ends
  · cases s with
    | nil => simp
    | cons c rest => simpa using h c (by simp)
  · cases hs : s.getLast? with
    | none => simp
    | some c =>
      have hmem : c ∈ s := by
        obtain ⟨hne, heq⟩ :=
          List.mem_getLast?_eq_getLast (show c ∈ s.getLast? by simp [hs])
        rw [heq]
        exact List.getLast_mem hne
      simpa using h c hmem

/-- The `IsQuoted` interior scan walks over an uninterpretation without
noticing a quote. -/
theorem isQuotedLoop_uninterpret_append : ∀ (s rest : Str),
    isQuotedLoop (uninterpret s ++ rest) false = isQuotedLoop rest false
  | [], _ => by simp [uninterpret]
  | c :: s, rest => by
    by_cases h : c = escapeChar ∨ c = quoteChar
    · rw [show uninterpret (c :: s) = escapeChar :: c :: uninterpret s by simp [uninterpret, h]]
      rw [List.cons_append, List.cons_append]
      rw [show isQuotedLoop (escapeChar :: c :: (uninterpret s ++ rest)) false =
        isQuotedLoop (uninterpret s ++ rest) false by simp [isQuotedLoop]]
      exact isQuotedLoop_uninterpret_append s rest
    · push_neg at h
      rw [show uninterpret (c :: s) = c :: uninterpret s by simp [uninterpret, h.1, h.2]]
      rw [List.cons_append]
      rw [show isQuotedLoop (c :: (uninterpret s ++ rest)) false =
        isQuotedLoop (uninterpret s ++ rest) false by simp [isQuotedLoop, h.1, h.2]]
      exact isQuotedLoop_uninterpret_append s rest

/-- A quoted uninterpretation is fully quoted. -/
theorem isQuoted_quoteStr_uninterpret (s : Str) :
    isQuoted (quoteStr (uninterpret s)) = true := by
  unfold isQuoted quoteStr
  rw [if_neg (by simp)]
  rw [if_neg (by simp)]
  rw [if_neg (not_not.mpr (by
    rw [show quoteChar :: (uninterpret s ++ [quoteChar]) =
      (quoteChar :: uninterpret s) ++ [quoteChar] by simp]
    exact List.getLast?_concat _))]
  rw [show ((quoteChar :: (uninterpret s ++ [quoteChar])).drop 1).dropLast = uninterpret s by
    simp]
  simpa using isQuotedLoop_uninterpret_append s []

/-- Interpreting a quoted uninterpretation recovers the original. -/
theorem interpret_quoteStr_uninterpret (s : Str) :
    interpret (quoteStr (uninterpret s)) = s := by
  unfold interpret
  rw [if_neg (by simp [quoteStr]), if_pos (isQuoted_quoteStr_uninterpret s)]
  rw [show ((quoteStr (uninterpret s)).drop 1).dropLast = uninterpret s by simp [quoteStr]]
  simpa [interpretLoop] using interpretLoop_uninterpret_append s []

/-! ## Interpretation consumption -/

/-- Interpretation consumption composes. -/
theorem interpConsumes_append {a oa b ob : Str}
    (ha : InterpConsumes a oa) (hb : InterpConsumes b ob) :
    InterpConsumes (a ++ b) (oa ++ ob) := by
  intro v
  rw [List.append_assoc, ha (b ++ v), hb v, List.append_assoc]

/-- A non-reserved character is interpreted as itself. -/
theorem interpConsumes_char {c : Char} (h1 : c ≠ escapeChar) (h2 : c ≠ quoteChar) :
    InterpConsumes [c] [c] := by
  intro v
  rw [List.singleton_append]
  simp [interpretLoop, h1, h2]

/-- A string of non-reserved characters is interpreted as itself. -/
theorem interpConsumes_plain : ∀ s : Str, (∀ c ∈ s, c ≠ escapeChar ∧ c ≠ quoteChar) →
    InterpConsumes s s
  | [], _ => by intro v; simp
  | c :: rest, h => by
    have hc := h c (by simp)
    have := interpConsumes_append (interpConsumes_char hc.1 hc.2)
      (interpConsumes_plain rest (fun x hx => h x (by simp [hx])))
    simpa using this

/-- An uninterpretation is interpreted back to the original. -/
theorem interpConsumes_uninterpret (s : Str) : InterpConsumes (uninterpret s) s :=
  fun v => interpretLoop_uninterpret_append s v

/-- The head of an append is the head of a non-empty first part. -/
theorem head?_append_left {a : Str} (b : Str) (h : a ≠ []) : (a ++ b).head? = a.head? := by
  cases a with
  | nil => exact absurd rfl h
  | cons c rest => rfl

/-! ## Decimal rendering and stream extraction -/

/-- A character that is not a digit differs from every digit character. -/
theorem ne_of_digit {c : Char} (h : isDigitChar c = true) (a : Char)
    (ha : isDigitChar a = false) : c ≠ a := by
  intro heq
  rw [heq, ha] at h
  exact Bool.false_ne_true h

/-- Digits are not stream whitespace. -/
theorem digit_not_space {c : Char} (h : isDigitChar c = true) : isCppSpace c = false := by
  simp only [isCppSpace, decide_eq_false_iff_not]
  push_neg
  exact ⟨ne_of_digit h ' ' (by decide), ne_of_digit h (Char.ofNat 9) (by decide),
    ne_of_digit h (Char.ofNat 10) (by decide), ne_of_digit h (Char.ofNat 11) (by decide),
    ne_of_digit h (Char.ofNat 12) (by decide), ne_of_digit h (Char.ofNat 13) (by decide)⟩

/-- The generated digit character of one division step. -/
theorem digit_char_facts (r : Nat) (h : r < 10) :
    (Char.ofNat (48 + r)).toNat = 48 + r ∧ isDigitChar (Char.ofNat (48 + r)) = true := by
  interval_cases r <;> exact ⟨by decide, by decide⟩

/-- One folding step. -/
theorem fold10_cons (c : Char) (l : Str) (v : Nat) :
    fold10 (c :: l) v = fold10 l (10 * v + (c.toNat - 48)) := rfl

/-- The accumulator-style digit rendering: its digits fold back to the
rendered number (with the incoming fold value scaled), all emitted
characters are digits or come from the accumulator, and a non-zero number
emits at least one digit. -/
theorem natToDecAux_spec : ∀ (bound n : Nat), n ≤ bound → ∀ acc : Str,
    ∃ m : Nat, 0 < m ∧
      (∀ v : Nat, fold10 (natToDecAux bound n acc) v = fold10 acc (v * m + n)) ∧
      (∀ c ∈ natToDecAux bound n acc, isDigitChar c = true ∨ c ∈ acc) ∧
      (n ≠ 0 → acc.length < (natToDecAux bound n acc).length)
  | 0, n, h, acc => by
    obtain rfl : n = 0 := Nat.le_zero.mp h
    exact ⟨1, by omega, fun v => by simp [natToDecAux, fold10], fun c hc => Or.inr hc,
      fun hn => absurd rfl hn⟩
  | bound + 1, 0, _, acc =>
    ⟨1, by omega, fun v => by simp [natToDecAux, fold10], fun c hc => Or.inr hc,
      fun hn => absurd rfl hn⟩
  | bound + 1, n + 1, h, acc => by
    have hq : (n + 1) / 10 ≤ bound := by
      have := Nat.div_lt_self (Nat.succ_pos n) (by omega : 1 < 10)
      omega
    have hr : (n + 1) % 10 < 10 := Nat.mod_lt _ (by omega)
    obtain ⟨htn, htd⟩ := digit_char_facts ((n + 1) % 10) hr
    obtain ⟨m, hm, hfold, hchars, hlen⟩ :=
      natToDecAux_spec bound ((n + 1) / 10) hq (Char.ofNat (48 + (n + 1) % 10) :: acc)
    refine ⟨10 * m, by omega, fun v => ?_, fun c hc => ?_, fun _ => ?_⟩
    · rw [show natToDecAux (bound + 1) (n + 1) acc =
        natToDecAux bound ((n + 1) / 10) (Char.ofNat (48 + (n + 1) % 10) :: acc) from rfl]
      rw [hfold v, fold10_cons, htn]
      have hdm := Nat.div_add_mod (n + 1) 10
      congr 1
      have : 48 + (n + 1) % 10 - 48 = (n + 1) % 10 := by omega
      rw [this]
      nlinarith [hdm]
    · rw [show natToDecAux (bound + 1) (n + 1) acc =
        natToDecAux bound ((n + 1) / 10) (Char.ofNat (48 + (n + 1) % 10) :: acc) from rfl] at hc
      rcases hchars c hc with h1 | h1
      · exact Or.inl h1
      · rcases List.mem_cons.mp h1 with h2 | h2
        · exact Or.inl (h2 ▸ htd)
        · exact Or.inr h2
    · rw [show natToDecAux (bound + 1) (n + 1) acc =
        natToDecAux bound ((n + 1) / 10) (Char.ofNat (48 + (n + 1) % 10) :: acc) from rfl]
      by_cases hq0 : (n + 1) / 10 = 0
      · rw [hq0]
        have : ∀ b (a : Str), natToDecAux b 0 a = a := by
          intro b a; cases b <;> rfl
        rw [this]
        simp
      · have := hlen hq0
        simp only [List.length_cons] at this
        omega

/-- The decimal rendering of a natural number: non-empty, all digits, and
folding the digits back recovers the number. -/
theorem natToDec_spec (n : Nat) :
    natToDec n ≠ [] ∧ (∀ c ∈ natToDec n, isDigitChar c = true) ∧ fold10 (natToDec n) 0 = n := by
  by_cases h : n = 0
  · subst h
    exact ⟨by decide, by decide, by decide⟩
  · unfold natToDec
    rw [if_neg h]
    obtain ⟨m, _, hfold, hchars, hlen⟩ := natToDecAux_spec n n le_rfl []
    refine ⟨?_, ?_, ?_⟩
    · have := hlen h
      intro hnil
      rw [hnil] at this
      simp at this
    · intro c hc
      rcases hchars c hc with h1 | h1
      · exact h1
      · simp at h1
    · have := hfold 0
      simpa [fold10] using this

/-- A list all of whose elements satisfy the predicate is taken whole. -/
theorem takeWhile_all {p : Char → Bool} :
    ∀ l : Str, (∀ c ∈ l, p c = true) → l.takeWhile p = l
  | [], _ => rfl
  | c :: rest, h => by
    rw [List.takeWhile_cons, if_pos (h c (by simp))]
    rw [takeWhile_all rest (fun x hx => h x (by simp [hx]))]

/-- Stream extraction on a pure digit string reads all the digits. -/
theorem cppReadInt_digits (c : Char) (rest : Str) (hc : isDigitChar c = true)
    (hrest : ∀ x ∈ rest, isDigitChar x = true) :
    cppReadInt (c :: rest) = some ((fold10 (c :: rest) 0 : Nat) : Int) := by
  have hm : c ≠ '-' := ne_of_digit hc '-' (by decide)
  have hp : c ≠ '+' := ne_of_digit hc '+' (by decide)
  have hdrop : List.dropWhile isCppSpace (c :: rest) = c :: rest := by
    rw [List.dropWhile_cons, digit_not_space hc]
    simp
  have htake : List.takeWhile isDigitChar (c :: rest) = c :: rest := by
    refine takeWhile_all _ ?_
    intro x hx
    rcases List.mem_cons.mp hx with h | h
    · exact h ▸ hc
    · exact hrest x h
  unfold cppReadInt
  simp [hdrop, htake, hm, hp]

/-- Stream extraction on a dash followed by digits negates the digit fold. -/
theorem cppReadInt_dash_digits (c : Char) (rest : Str) (hc : isDigitChar c = true)
    (hrest : ∀ x ∈ rest, isDigitChar x = true) :
    cppReadInt ('-' :: c :: rest) = some (-((fold10 (c :: rest) 0 : Nat) : Int)) := by
  have hdrop : List.dropWhile isCppSpace ('-' :: c :: rest) = '-' :: c :: rest := by
    rw [List.dropWhile_cons, show isCppSpace '-' = false from by decide]
    simp
  have htake : List.takeWhile isDigitChar (c :: rest) = c :: rest := by
    refine takeWhile_all _ ?_
    intro x hx
    rcases List.mem_cons.mp hx with h | h
    · exact h ▸ hc
    · exact hrest x h
  unfold cppReadInt
  simp [hdrop, htake]

/-- Reading back the decimal rendering of a natural number. -/
theorem cppReadInt_natToDec (n : Nat) : cppReadInt (natToDec n) = some (n : Int) := by
  obtain ⟨hne, hdig, hfold⟩ := natToDec_spec n
  obtain ⟨c, rest, hcons⟩ : ∃ c rest, natToDec n = c :: rest := by
    cases hh : natToDec n with
    | nil => exact absurd hh hne
    | cons c rest => exact ⟨c, rest, rfl⟩
  rw [hcons]
  rw [cppReadInt_digits c rest (hdig c (by rw [hcons]; simp))
    (fun x hx => hdig x (by rw [hcons]; simp [hx]))]
  rw [show fold10 (c :: rest) 0 = n from hcons ▸ hfold]

/-- Reading back `std::to_string` of an integer. -/
theorem cppReadInt_intToString (i : Int) : cppReadInt (intToString i) = some i := by
  by_cases hi : i < 0
  · unfold intToString
    rw [if_pos hi]
    obtain ⟨hne, hdig, hfold⟩ := natToDec_spec i.natAbs
    obtain ⟨c, rest, hcons⟩ : ∃ c rest, natToDec i.natAbs = c :: rest := by
      cases hh : natToDec i.natAbs with
      | nil => exact absurd hh hne
      | cons c rest => exact ⟨c, rest, rfl⟩
    rw [hcons]
    rw [cppReadInt_dash_digits c rest (hdig c (by rw [hcons]; simp))
      (fun x hx => hdig x (by rw [hcons]; simp [hx]))]
    rw [show fold10 (c :: rest) 0 = i.natAbs from hcons ▸ hfold]
    congr 1
    omega
  · unfold intToString
    rw [if_neg hi]
    rw [cppReadInt_natToDec]
    congr 1
    omega

/-- The scalar text parser reads back `std::to_string`. -/
theorem parseTargetInt_intToString (i : Int) :
    parseTargetInt (intToString i) = .ok i := by
  unfold parseTargetInt
  rw [cppReadInt_intToString]

/-- Every character of a rendered integer is a dash or a digit. -/
theorem intToString_chars (i : Int) :
    ∀ c ∈ intToString i, c = '-' ∨ isDigitChar c = true := by
  intro c hc
  obtain ⟨_, hdig, _⟩ := natToDec_spec i.natAbs
  by_cases hi : i < 0
  · rw [intToString, if_pos hi] at hc
    rcases List.mem_cons.mp hc with h1 | h1
    · exact Or.inl h1
    · exact Or.inr (hdig c h1)
  · rw [intToString, if_neg hi] at hc
    exact Or.inr (hdig c hc)

/-- A rendered integer is non-empty. -/
theorem intToString_ne_nil (i : Int) : intToString i ≠ [] := by
  obtain ⟨hne, _, _⟩ := natToDec_spec i.natAbs
  by_cases hi : i < 0 <;> simp [intToString, hi, hne]

/-- Characters of a rendered integer avoid all separator and reserved
characters. -/
theorem intToString_plain (i : Int) :
    ∀ c ∈ intToString i, c ≠ ' ' ∧ c ≠ ',' ∧ c ≠ quoteChar ∧ c ≠ escapeChar := by
  intro c hc
  rcases intToString_chars i c hc with h1 | h1
  · subst h1
    exact ⟨by decide, by decide, by decide, by decide⟩
  · exact ⟨ne_of_digit h1 ' ' (by decide), ne_of_digit h1 ',' (by decide),
      ne_of_digit h1 quoteChar (by decide), ne_of_digit h1 escapeChar (by decide)⟩

/-! ## Value round trips -/

/-- Original characters survive `Uninterpret`. -/
theorem mem_uninterpret_of_mem : ∀ s : Str, ∀ c ∈ s, c ∈ uninterpret s
  | a :: rest, c, hc => by
    by_cases ha : a = escapeChar ∨ a = quoteChar
    · rw [show uninterpret (a :: rest) = escapeChar :: a :: uninterpret rest by
        simp [uninterpret, ha]]
      rcases List.mem_cons.mp hc with h | h
      · simp [h]
      · simp [mem_uninterpret_of_mem rest c h]
    · push_neg at ha
      rw [show uninterpret (a :: rest) = a :: uninterpret rest by simp [uninterpret, ha.1, ha.2]]
      rcases List.mem_cons.mp hc with h | h
      · simp [h]
      · simp [mem_uninterpret_of_mem rest c h]

/-- `Uninterpret` introduces no character besides the escape character. -/
theorem uninterpret_avoids {s : Str} {a : Char} (h : ∀ c ∈ s, c ≠ a)
    (ha : escapeChar ≠ a) : ∀ c ∈ uninterpret s, c ≠ a := by
  intro c hc
  rcases mem_uninterpret s c hc with h1 | h1
  · exact h1 ▸ ha
  · exact h c h1

/-- Boolean containment versus membership on character lists. -/
theorem contains_eq_false_iff (s : Str) (a : Char) : s.contains a = false ↔ a ∉ s := by
  simp

/-- An `Uninterpret` image is never empty when the original is not. -/
theorem uninterpret_ne_nil_of_ne (s : Str) (h : s ≠ []) : uninterpret s ≠ [] := by
  cases s with
  | nil => exact absurd rfl h
  | cons c rest =>
    by_cases hc : c = escapeChar ∨ c = quoteChar <;> simp [uninterpret, hc]

/-- One fuel unfolding of the raw-string type parser. -/
theorem parseTypeStr_succ (env : TargetEnv) (fuel : Nat) (s : Str) (ty : VType) :
    parseTypeStr env (fuel + 1) s ty = parseTypeStrBody (ctors env fuel) s ty := rfl

/-- The scalar rendering of a round-trip-safe array element: non-empty,
free of spaces and commas (after one escape image as well), consumed whole
by the comma splitter, and parsed back to the element by the raw-string
type parser. -/
theorem elem_roundtrip (e : AttrVal) (ety : VType) (h : elemValOK e ety = true) :
    ∃ a, stringifyAtomicType e = .ok a ∧ a ≠ [] ∧
      (∀ c ∈ a, c ≠ ' ' ∧ c ≠ ',') ∧ ConsumesTok ',' a ∧
      ∀ env fuel, parseTypeStr env (fuel + 1) a ety = .ok e := by
  cases e with
  | int i =>
    cases ety with
    | int =>
      refine ⟨intToString i, rfl, intToString_ne_nil i, ?_, ?_, ?_⟩
      · intro c hc
        obtain ⟨h1, h2, _, _⟩ := intToString_plain i c hc
        exact ⟨h1, h2⟩
      · refine consumesTok_plain _ ?_
        intro c hc
        obtain ⟨_, h2, h3, h4⟩ := intToString_plain i c hc
        exact ⟨h2, h3, h4⟩
      · intro env fuel
        rw [parseTypeStr_succ]
        show (match parseTargetInt (interpret (intToString i)) with
          | .error e => (.error e : Except TErr AttrVal)
          | .ok v => .ok (.int v)) = .ok (.int i)
        rw [interpret_plain (intToString i) (fun c hc => by
          obtain ⟨_, _, h3, h4⟩ := intToString_plain i c hc
          exact ⟨h4, h3⟩)]
        rw [parseTargetInt_intToString]
    | bool => exact absurd h (by simp [elemValOK])
    | str => exact absurd h (by simp [elemValOK])
    | target => exact absurd h (by simp [elemValOK])
    | arr ety2 => exact absurd h (by simp [elemValOK])
    | map k v => exact absurd h (by simp [elemValOK])
  | bool b =>
    cases ety with
    | bool =>
      cases b with
      | false =>
        exact ⟨['0'], rfl, by decide, by decide,
          consumesTok_char (by decide) (by decide) (by decide), fun env fuel => rfl⟩
      | true =>
        exact ⟨['1'], rfl, by decide, by decide,
          consumesTok_char (by decide) (by decide) (by decide), fun env fuel => rfl⟩
    | int => exact absurd h (by simp [elemValOK])
    | str => exact absurd h (by simp [elemValOK])
    | target => exact absurd h (by simp [elemValOK])
    | arr ety2 => exact absurd h (by simp [elemValOK])
    | map k v => exact absurd h (by simp [elemValOK])
  | str s =>
    cases ety with
    | str =>
      have hprops : s ≠ [] ∧ ∀ c ∈ s, c ≠ ' ' ∧ c ≠ ',' := by
        rw [elemValOK, Bool.and_eq_true, decide_eq_true_eq, List.all_eq_true] at h
        exact ⟨h.1, fun c hc => by
          have := h.2 c hc
          rw [decide_eq_true_eq] at this
          exact this⟩
      have hnospace : ∀ c ∈ uninterpret s, c ≠ ' ' :=
        uninterpret_avoids (fun c hc => (hprops.2 c hc).1) (by decide)
      have hnocomma : ∀ c ∈ uninterpret s, c ≠ ',' :=
        uninterpret_avoids (fun c hc => (hprops.2 c hc).2) (by decide)
      have hnotquoted : (uninterpret s).contains ' ' = false := by
        rw [contains_eq_false_iff]
        intro hmem
        exact hnospace ' ' hmem rfl
      refine ⟨uninterpret s, ?_, uninterpret_ne_nil_of_ne s hprops.1, ?_, ?_, ?_⟩
      · show Except.ok (if (uninterpret s).contains ' ' = true ∧
            isQuoted (uninterpret s) = false then quoteStr (uninterpret s)
          else uninterpret s) = Except.ok (uninterpret s)
        rw [if_neg (by rw [hnotquoted]; simp)]
      · exact fun c hc => ⟨hnospace c hc, hnocomma c hc⟩
      · exact consumesTok_uninterpret (by decide) (by decide) s
          (fun c hc => (hprops.2 c hc).2)
      · intro env fuel
        rw [parseTypeStr_succ]
        show (Except.ok (AttrVal.str (trimSpaces (interpret (uninterpret s)))) :
            Except TErr AttrVal) = Except.ok (AttrVal.str s)
        rw [interpret_uninterpret s,
          trimSpaces_of_no_space s (fun c hc => (hprops.2 c hc).1)]
    | int => exact absurd h (by simp [elemValOK])
    | bool => exact absurd h (by simp [elemValOK])
    | target => exact absurd h (by simp [elemValOK])
    | arr ety2 => exact absurd h (by simp [elemValOK])
    | map k v => exact absurd h (by simp [elemValOK])
  | null => exact absurd h (by cases ety <;> simp [elemValOK])
  | arr es => exact absurd h (by cases ety <;> simp [elemValOK])
  | map kvs => exact absurd h (by cases ety <;> simp [elemValOK])
  | target k hst t ks a f => exact absurd h (by cases ety <;> simp [elemValOK])

/-- A non-empty join starts with its first element. -/
theorem joinRec_cons_exists (sep : Char) (t : Str) (ts : List Str) :
    ∃ r, joinRec sep (t :: ts) = t ++ r := by
  cases ts with
  | nil => exact ⟨[], by simp [joinRec]⟩
  | cons t2 ts2 => exact ⟨sep :: joinRec sep (t2 :: ts2), rfl⟩

/-- A join headed by a non-empty element is non-empty. -/
theorem joinRec_ne_nil (sep : Char) (t : Str) (ts : List Str) (h : t ≠ []) :
    joinRec sep (t :: ts) ≠ [] := by
  obtain ⟨r, hr⟩ := joinRec_cons_exists sep t ts
  rw [hr]
  simp [h]

/-- A join of consumed tokens with a consumed joining character is
consumed. -/
theorem consumesTok_join {sep sepj : Char} (hj : ConsumesTok sep [sepj]) :
    ∀ ts : List Str, (∀ t ∈ ts, ConsumesTok sep t) → ConsumesTok sep (joinRec sepj ts)
  | [], _ => consumesTok_nil sep
  | [t], h => by
    rw [show joinRec sepj [t] = t from rfl]
    exact h t (by simp)
  | t :: t2 :: ts, h => by
    rw [show joinRec sepj (t :: t2 :: ts) = t ++ sepj :: joinRec sepj (t2 :: ts) from rfl]
    have ih := consumesTok_join hj (t2 :: ts) (fun x hx => h x (List.mem_cons_of_mem t hx))
    refine consumesTok_append (h t (by simp)) ?_
    rw [show sepj :: joinRec sepj (t2 :: ts) = [sepj] ++ joinRec sepj (t2 :: ts) from rfl]
    exact consumesTok_append hj ih

/-- A join of `Uninterpret` images over a non-reserved joining character is
interpreted to the join of the originals. -/
theorem interpConsumes_join {sepj : Char} (h1 : sepj ≠ escapeChar) (h2 : sepj ≠ quoteChar) :
    ∀ as : List Str,
      InterpConsumes (joinRec sepj (as.map uninterpret)) (joinRec sepj as)
  | [] => by intro v; simp [joinRec]
  | [a] => by
    rw [show (([a] : List Str).map uninterpret) = [uninterpret a] from rfl]
    rw [show joinRec sepj [uninterpret a] = uninterpret a from rfl]
    rw [show joinRec sepj [a] = a from rfl]
    exact interpConsumes_uninterpret a
  | a :: a2 :: as => by
    rw [show ((a :: a2 :: as).map uninterpret) =
      uninterpret a :: (a2 :: as).map uninterpret from rfl]
    rw [show ((a2 :: as).map uninterpret) = uninterpret a2 :: as.map uninterpret from rfl]
    rw [show joinRec sepj (uninterpret a :: uninterpret a2 :: as.map uninterpret) =
      uninterpret a ++ sepj :: joinRec sepj (uninterpret a2 :: as.map uninterpret) from rfl]
    rw [show joinRec sepj (a :: a2 :: as) = a ++ sepj :: joinRec sepj (a2 :: as) from rfl]
    have ih := interpConsumes_join h1 h2 (a2 :: as)
    rw [show ((a2 :: as).map uninterpret) = uninterpret a2 :: as.map uninterpret from rfl] at ih
    refine interpConsumes_append (interpConsumes_uninterpret a) ?_
    rw [show sepj :: joinRec sepj (uninterpret a2 :: as.map uninterpret) =
      [sepj] ++ joinRec sepj (uninterpret a2 :: as.map uninterpret) from rfl]
    rw [show sepj :: joinRec sepj (a2 :: as) = [sepj] ++ joinRec sepj (a2 :: as) from rfl]
    exact interpConsumes_append (interpConsumes_char h1 h2) ih

/-- The array rendering loop on round-trip-safe elements: every emitted
token is the escape image of the scalar rendering, and the element parser
recovers the original elements from those renderings. -/
theorem arr_elems_roundtrip (ety : VType) :
    ∀ es : List AttrVal, (∀ e ∈ es, elemValOK e ety = true) →
    ∃ as : List Str,
      stringifyArrayElems es = .ok (as.map uninterpret) ∧
      as.length = es.length ∧
      (∀ a ∈ as, a ≠ [] ∧ ConsumesTok ',' a ∧ (∀ c ∈ a, c ≠ ' ' ∧ c ≠ ',')) ∧
      ∀ env fuel,
        parseElems (fun sub => parseTypeStr env (fuel + 1) sub ety) as = .ok es
  | [], _ => ⟨[], rfl, rfl, by simp, fun env fuel => rfl⟩
  | e :: rest, h => by
    obtain ⟨a, ha, hane, hchars, hcons, hparse⟩ := elem_roundtrip e ety (h e (by simp))
    obtain ⟨as, has, hlen, hfacts, hparses⟩ :=
      arr_elems_roundtrip ety rest (fun x hx => h x (List.mem_cons_of_mem e hx))
    have hnc : (uninterpret a).contains ',' = false := by
      rw [contains_eq_false_iff]
      intro hm
      exact uninterpret_avoids (fun c hc => (hchars c hc).2) (by decide) ',' hm rfl
    refine ⟨a :: as, ?_, by simp [hlen], ?_, ?_⟩
    · show (match stringifyAtomicType e with
        | .error er => (.error er : Except TErr (List Str))
        | .ok s =>
          let u := uninterpret s
          let u2 := if u.contains ',' = true ∧ isQuoted u = false then quoteStr u else u
          Except.map (fun tail => u2 :: tail) (stringifyArrayElems rest)) =
        .ok ((a :: as).map uninterpret)
      rw [ha]
      show Except.map (fun tail => (if (uninterpret a).contains ',' = true ∧
          isQuoted (uninterpret a) = false then quoteStr (uninterpret a)
        else uninterpret a) :: tail) (stringifyArrayElems rest) = _
      rw [if_neg (by rw [hnc]; simp), has]
      rfl
    · intro x hx
      rcases List.mem_cons.mp hx with h1 | h1
      · exact h1 ▸ ⟨hane, hcons, hchars⟩
      · exact hfacts x h1
    · intro env fuel
      show (match parseTypeStr env (fuel + 1) a ety with
        | .error er => (.error er : Except TErr (List AttrVal))
        | .ok v => Except.map (fun tail => v :: tail)
            (parseElems (fun sub => parseTypeStr env (fuel + 1) sub ety) as)) =
        .ok (e :: rest)
      rw [hparse env fuel]
      show Except.map (fun tail => e :: tail)
        (parseElems (fun sub => parseTypeStr env (fuel + 1) sub ety) as) = .ok (e :: rest)
      rw [hparses env fuel]
      rfl

/-- The value round trip: a round-trip-safe attribute value is rendered to
a non-empty token that the space splitter consumes whole and that the
raw-string type parser (two fuel levels) maps back to the value. -/
theorem val_roundtrip (v : AttrVal) (ty : VType) (h : valOK v ty = true) :
    ∃ u, stringifyValue v = .ok u ∧ u ≠ [] ∧ ConsumesTok ' ' u ∧
      ∀ env fuel, parseTypeStr env (fuel + 2) u ty = .ok v := by
  cases v with
  | int i =>
    cases ty with
    | int =>
      refine ⟨intToString i, rfl, intToString_ne_nil i, ?_, ?_⟩
      · refine consumesTok_plain _ ?_
        intro c hc
        obtain ⟨h1, _, h3, h4⟩ := intToString_plain i c hc
        exact ⟨h1, h3, h4⟩
      · intro env fuel
        show (match parseTargetInt (interpret (intToString i)) with
          | .error e => (.error e : Except TErr AttrVal)
          | .ok w => .ok (.int w)) = .ok (.int i)
        rw [interpret_plain (intToString i) (fun c hc => by
          obtain ⟨_, _, h3, h4⟩ := intToString_plain i c hc
          exact ⟨h4, h3⟩)]
        rw [parseTargetInt_intToString]
    | bool => exact absurd h (by simp [valOK])
    | str => exact absurd h (by simp [valOK])
    | target => exact absurd h (by simp [valOK])
    | arr ety => exact absurd h (by simp [valOK])
    | map k w => exact absurd h (by simp [valOK])
  | bool b =>
    cases ty with
    | bool =>
      cases b with
      | false =>
        exact ⟨['0'], rfl, by decide,
          consumesTok_char (by decide) (by decide) (by decide), fun env fuel => rfl⟩
      | true =>
        exact ⟨['1'], rfl, by decide,
          consumesTok_char (by decide) (by decide) (by decide), fun env fuel => rfl⟩
    | int => exact absurd h (by simp [valOK])
    | str => exact absurd h (by simp [valOK])
    | target => exact absurd h (by simp [valOK])
    | arr ety => exact absurd h (by simp [valOK])
    | map k w => exact absurd h (by simp [valOK])
  | str s =>
    cases ty with
    | str =>
      have hprops : s ≠ [] ∧ s.head? ≠ some ' ' ∧ s.getLast? ≠ some ' ' := by
        rw [valOK, strValOK] at h
        simp only [Bool.and_eq_true, decide_eq_true_eq] at h
        exact ⟨h.1.1, h.1.2, h.2⟩
      have htrim : trimSpaces s = s := trimSpaces_of_ends s hprops.2.1 hprops.2.2
      by_cases hw : (uninterpret s).contains ' ' = true
      · refine ⟨quoteStr (uninterpret s), ?_, by simp [quoteStr], ?_, ?_⟩
        · show Except.ok (if (uninterpret s).contains ' ' = true ∧
              isQuoted (uninterpret s) = false then quoteStr (uninterpret s)
            else uninterpret s) = Except.ok (quoteStr (uninterpret s))
          rw [if_pos ⟨hw, isQuoted_uninterpret s⟩]
        · exact consumesTok_quoted (by decide) (by decide) s
        · intro env fuel
          show (Except.ok (AttrVal.str
              (trimSpaces (interpret (quoteStr (uninterpret s))))) :
              Except TErr AttrVal) = Except.ok (AttrVal.str s)
          rw [interpret_quoteStr_uninterpret s, htrim]
      · refine ⟨uninterpret s, ?_, uninterpret_ne_nil_of_ne s hprops.1, ?_, ?_⟩
        · show Except.ok (if (uninterpret s).contains ' ' = true ∧
              isQuoted (uninterpret s) = false then quoteStr (uninterpret s)
            else uninterpret s) = Except.ok (uninterpret s)
          rw [if_neg (fun hand => hw hand.1)]
        · refine consumesTok_uninterpret (by decide) (by decide) s ?_
          intro c hc heq
          exact hw (by
            rw [show ((uninterpret s).contains ' ' = true) ↔ ' ' ∈ uninterpret s by simp]
            exact mem_uninterpret_of_mem s ' ' (heq ▸ hc))
        · intro env fuel
          show (Except.ok (AttrVal.str (trimSpaces (interpret (uninterpret s)))) :
              Except TErr AttrVal) = Except.ok (AttrVal.str s)
          rw [interpret_uninterpret s, htrim]
    | int => exact absurd h (by simp [valOK])
    | bool => exact absurd h (by simp [valOK])
    | target => exact absurd h (by simp [valOK])
    | arr ety => exact absurd h (by simp [valOK])
    | map k w => exact absurd h (by simp [valOK])
  | arr es =>
    cases ty with
    | arr ety =>
      have hprops : es ≠ [] ∧ ∀ e ∈ es, elemValOK e ety = true := by
        rw [valOK, Bool.and_eq_true, List.all_eq_true] at h
        refine ⟨?_, fun e he => h.2 e he⟩
        · intro hnil
          subst hnil
          simp at h
      obtain ⟨as, has, hlen, hfacts, hparses⟩ := arr_elems_roundtrip ety es hprops.2
      obtain ⟨a1, as', rfl⟩ : ∃ a1 as', as = a1 :: as' := by
        cases as with
        | nil =>
          rw [show ([] : List Str).length = 0 from rfl] at hlen
          cases es with
          | nil => exact absurd rfl hprops.1
          | cons e es2 => simp at hlen
        | cons a1 as' => exact ⟨a1, as', rfl⟩
      have ha1 := hfacts a1 (by simp)
      have ha1u : uninterpret a1 ≠ [] := uninterpret_ne_nil_of_ne a1 ha1.1
      have humap : (a1 :: as').map uninterpret = uninterpret a1 :: as'.map uninterpret := rfl
      have hu_ne : joinRec ',' ((a1 :: as').map uninterpret) ≠ [] := by
        rw [humap]
        exact joinRec_ne_nil ',' (uninterpret a1) _ ha1u
      have hnotq : isQuoted (joinRec ',' ((a1 :: as').map uninterpret)) = false := by
        apply isQuoted_of_head_ne
        rw [humap]
        obtain ⟨r, hr⟩ := joinRec_cons_exists ',' (uninterpret a1) (as'.map uninterpret)
        rw [hr, head?_append_left r ha1u]
        cases a1 with
        | nil => exact absurd rfl ha1.1
        | cons c1 r1 =>
          rcases uninterpret_head c1 r1 with h1 | h1
          · rw [h1]
            intro hfalse
            exact escape_ne_quote (by injection hfalse)
          · rw [h1.1]
            intro hfalse
            exact h1.2.1 (by injection hfalse)
      have hinterp : interpret (joinRec ',' ((a1 :: as').map uninterpret)) =
          joinRec ',' (a1 :: as') := by
        unfold interpret
        rw [if_neg hu_ne, hnotq]
        rw [show (if false = true then
          interpretLoop (((joinRec ',' ((a1 :: as').map uninterpret)).drop 1).dropLast)
            false false
          else interpretLoop (joinRec ',' ((a1 :: as').map uninterpret)) false false) =
          interpretLoop (joinRec ',' ((a1 :: as').map uninterpret)) false false by simp]
        have := interpConsumes_join (by decide : ',' ≠ escapeChar)
          (by decide : ',' ≠ quoteChar) (a1 :: as') []
        simpa [interpretLoop] using this
      have hsplit : splitString (joinRec ',' (a1 :: as')) ',' = .ok (a1 :: as') := by
        unfold splitString
        have := splitLoop_joinRec a1 as'
          (fun x hx => ⟨(hfacts x hx).1, (hfacts x hx).2.1⟩) []
        simpa using this
      refine ⟨joinRec ',' ((a1 :: as').map uninterpret), ?_, hu_ne, ?_, ?_⟩
      · show (match stringifyArrayElems es with
          | .error e => (.error e : Except TErr Str)
          | .ok xs => joinString xs ',') = _
        rw [has]
        show joinString ((a1 :: as').map uninterpret) ',' = _
        rw [joinString, if_neg (by decide)]
      · refine consumesTok_join (consumesTok_char (by decide) (by decide) (by decide)) _ ?_
        intro t ht
        obtain ⟨a, hamem, rfl⟩ := List.mem_map.mp ht
        exact consumesTok_uninterpret (by decide) (by decide) a
          (fun c hc heq => ((hfacts a hamem).2.2 c hc).1 heq)
      · intro env fuel
        show (match splitString (interpret (joinRec ','
              ((a1 :: as').map uninterpret))) ',' with
          | .error e => (.error e : Except TErr AttrVal)
          | .ok parts =>
            match parseElems (fun sub => parseTypeStr env (fuel + 1) sub ety) parts with
            | .error e => .error e
            | .ok elems => .ok (.arr elems)) = .ok (.arr es)
        rw [hinterp, hsplit]
        show (match parseElems (fun sub => parseTypeStr env (fuel + 1) sub ety)
            (a1 :: as') with
          | .error e => (.error e : Except TErr AttrVal)
          | .ok elems => .ok (.arr elems)) = .ok (.arr es)
        rw [hparses env fuel]
    | int => exact absurd h (by simp [valOK])
    | bool => exact absurd h (by simp [valOK])
    | str => exact absurd h (by simp [valOK])
    | target => exact absurd h (by simp [valOK])
    | map k w => exact absurd h (by simp [valOK])
  | null => exact absurd h (by cases ty <;> simp [valOK])
  | map kvs => exact absurd h (by cases ty <;> simp [valOK])
  | target k hst t ks a f => exact absurd h (by cases ty <;> simp [valOK])

/-! ## Association-list and deduplication infrastructure -/

/-- Lookup distributes over list append. -/
theorem lookupStr_append {α : Type} :
    ∀ (m1 m2 : List (Str × α)) (key : Str),
      lookupStr (m1 ++ m2) key =
        match lookupStr m1 key with
        | some v => some v
        | none => lookupStr m2 key
  | [], m2, key => rfl
  | (k, v) :: rest, m2, key => by
    by_cases h : k = key
    · simp [lookupStr, h]
    · simp only [List.cons_append, lookupStr, if_neg h]
      exact lookupStr_append rest m2 key

/-- A successful lookup exhibits a list entry. -/
theorem mem_of_lookup {α : Type} :
    ∀ {m : List (Str × α)} {k : Str} {v : α}, lookupStr m k = some v → (k, v) ∈ m := by
  intro m
  induction m with
  | nil => intro k v h; exact absurd h (by simp [lookupStr])
  | cons p rest ih =>
    intro k v h
    obtain ⟨k1, v1⟩ := p
    rw [lookupStr] at h
    by_cases hk : k1 = k
    · rw [if_pos hk] at h
      subst hk
      injection h with hv
      subst hv
      exact List.mem_cons_self _ _
    · rw [if_neg hk] at h
      exact List.mem_cons_of_mem _ (ih h)

/-- Failed lookup characterized by key absence. -/
theorem lookup_eq_none_iff {α : Type} :
    ∀ (m : List (Str × α)) (k : Str), lookupStr m k = none ↔ k ∉ m.map Prod.fst
  | [], k => by simp [lookupStr]
  | (k1, v1) :: rest, k => by
    rw [lookupStr]
    by_cases hk : k1 = k
    · subst hk
      rw [if_pos rfl]
      constructor
      · intro h
        exact (Option.some_ne_none v1 h).elim
      · intro hnot
        exact (hnot (by rw [List.map_cons]; exact List.mem_cons_self _ _)).elim
    · rw [if_neg hk]
      rw [lookup_eq_none_iff rest k]
      rw [List.map_cons]
      constructor
      · intro h hmem
        rcases List.mem_cons.mp hmem with h1 | h1
        · exact hk h1.symm
        · exact h h1
      · intro h hmem
        exact h (List.mem_cons_of_mem _ hmem)

/-- Erasing an absent key changes nothing. -/
theorem eraseStr_of_not_mem :
    ∀ (m : ConfigMap) (k : Str), k ∉ m.map Prod.fst → eraseStr m k = m
  | [], k, _ => rfl
  | (k1, v1) :: rest, k, h => by
    unfold eraseStr
    rw [List.filter_cons, if_pos (by
      rw [decide_eq_true_eq]
      intro heq
      have heq2 : k1 = k := heq
      exact h (by rw [List.map_cons, heq2]; exact List.mem_cons_self _ _))]
    have htail := eraseStr_of_not_mem rest k
      (fun hm => h (by rw [List.map_cons]; exact List.mem_cons_of_mem _ hm))
    unfold eraseStr at htail
    rw [htail]

/-- Deduplication never lengthens a list. -/
theorem dedupAux_length : ∀ (seen l : List Str), (dedupAux seen l).length ≤ l.length
  | _, [] => Nat.le_refl 0
  | seen, k :: rest => by
    rw [dedupAux]
    by_cases hk : k ∈ seen
    · rw [if_pos hk]
      exact Nat.le_succ_of_le (dedupAux_length (seen ++ [k]) rest)
    · rw [if_neg hk]
      simpa using Nat.succ_le_succ (dedupAux_length (seen ++ [k]) rest)

/-- A list fixed by deduplication avoids the seen prefix and has no
duplicates. -/
theorem dedup_eq_self : ∀ (seen l : List Str), dedupAux seen l = l →
    (∀ x ∈ l, x ∉ seen) ∧ l.Nodup
  | _, [], _ => ⟨by simp, List.nodup_nil⟩
  | seen, k :: rest, h => by
    rw [dedupAux] at h
    by_cases hk : k ∈ seen
    · rw [if_pos hk] at h
      have := dedupAux_length (seen ++ [k]) rest
      rw [h] at this
      simp at this
    · rw [if_neg hk] at h
      have htail : dedupAux (seen ++ [k]) rest = rest := by
        injection h
      obtain ⟨havoid, hnodup⟩ := dedup_eq_self (seen ++ [k]) rest htail
      refine ⟨?_, ?_⟩
      · intro x hx
        rcases List.mem_cons.mp hx with h1 | h1
        · exact h1 ▸ hk
        · intro hxs
          exact havoid x h1 (by simp [hxs])
      · refine List.nodup_cons.mpr ⟨?_, hnodup⟩
        intro hkr
        exact havoid k hkr (by simp)

/-- Appending an already-present key does not change deduplication. -/
theorem dedupAux_append_mem : ∀ (seen ks : List Str) (d : Str),
    d ∈ seen ∨ d ∈ ks → dedupAux seen (ks ++ [d]) = dedupAux seen ks
  | seen, [], d, h => by
    have hd : d ∈ seen := h.resolve_right (by simp)
    show (if d ∈ seen then dedupAux (seen ++ [d]) [] else d :: dedupAux (seen ++ [d]) []) =
      dedupAux seen []
    rw [if_pos hd]
    rfl
  | seen, k :: rest, d, h => by
    rw [List.cons_append, dedupAux, dedupAux]
    have hnext : d ∈ seen ++ [k] ∨ d ∈ rest := by
      rcases h with h1 | h1
      · exact Or.inl (by simp [h1])
      · rcases List.mem_cons.mp h1 with h2 | h2
        · exact Or.inl (by simp [h2])
        · exact Or.inr h2
    by_cases hk : k ∈ seen
    · rw [if_pos hk, if_pos hk]
      exact dedupAux_append_mem (seen ++ [k]) rest d hnext
    · rw [if_neg hk, if_neg hk]
      rw [dedupAux_append_mem (seen ++ [k]) rest d hnext]

/-- Sorted insertion is a permutation of pushing in front. -/
theorem insertSorted_perm (x : Str) : ∀ l : List Str, List.Perm (insertSorted x l) (x :: l)
  | [] => List.Perm.refl _
  | y :: ys => by
    rw [insertSorted]
    by_cases h : strLe x y = true
    · rw [if_pos h]
    · rw [if_neg h]
      exact List.Perm.trans (List.Perm.cons y (insertSorted_perm x ys))
        (List.Perm.swap x y ys)

/-- Sorting permutes. -/
theorem sortStrs_perm : ∀ l : List Str, List.Perm (sortStrs l) l
  | [] => List.Perm.refl _
  | x :: xs =>
    List.Perm.trans (insertSorted_perm x (sortStrs xs)) (List.Perm.cons x (sortStrs_perm xs))

mutual

/-- Structural value equality is reflexive. -/
theorem attrValBeq_refl : ∀ v : AttrVal, attrValBeq v v = true
  | .null => by rw [attrValBeq]
  | .int i => by rw [attrValBeq, decide_eq_true_eq]
  | .bool b => by rw [attrValBeq, decide_eq_true_eq]
  | .str s => by rw [attrValBeq, decide_eq_true_eq]
  | .arr as => by rw [attrValBeq]; exact valListBeq_refl as
  | .map kvs => by rw [attrValBeq]; exact valPairListBeq_refl kvs
  | .target k h t ks a f => by
    rw [attrValBeq]
    rw [optValBeq_refl h, namedListBeq_refl a, namedListBeq_refl f]
    simp

/-- Structural list equality is reflexive. -/
theorem valListBeq_refl : ∀ l : List AttrVal, valListBeq l l = true
  | [] => by rw [valListBeq]
  | a :: as => by
    rw [valListBeq, attrValBeq_refl a, valListBeq_refl as]
    rfl

/-- Structural pair-list equality is reflexive. -/
theorem valPairListBeq_refl : ∀ l : List (AttrVal × AttrVal), valPairListBeq l l = true
  | [] => by rw [valPairListBeq]
  | (k, v) :: rest => by
    rw [valPairListBeq, attrValBeq_refl k, attrValBeq_refl v, valPairListBeq_refl rest]
    rfl

/-- Structural optional equality is reflexive. -/
theorem optValBeq_refl : ∀ o : Option AttrVal, optValBeq o o = true
  | none => by rw [optValBeq]
  | some a => by rw [optValBeq]; exact attrValBeq_refl a

/-- Structural named-list equality is reflexive. -/
theorem namedListBeq_refl : ∀ l : List (Str × AttrVal), namedListBeq l l = true
  | [] => by rw [namedListBeq]
  | (k, v) :: rest => by
    rw [namedListBeq, attrValBeq_refl v, namedListBeq_refl rest]
    simp

end

/-- Two attribute maps with identical lookups are equivalent. -/
theorem attrsEquiv_of_lookup_eq (a b : ConfigMap)
    (h : ∀ n, lookupStr a n = lookupStr b n) : attrsEquiv a b = true := by
  unfold attrsEquiv
  rw [Bool.and_eq_true, List.all_eq_true, List.all_eq_true]
  constructor
  · intro n _
    rw [h n]
    exact optValBeq_refl _
  · intro n _
    rw [h n]
    exact optValBeq_refl _

/-- One fuel unfolding of the dynamic-value type parser. -/
theorem parseTypeAny_succ (env : TargetEnv) (fuel : Nat) (obj : AttrVal) (ty : VType) :
    parseTypeAny env (fuel + 1) obj ty = parseTypeAnyBody (ctors env fuel) obj ty := rfl

/-- The dynamic-value parser is the identity on round-trip-safe array
elements. -/
theorem parseTypeAny_elem_id (e : AttrVal) (ety : VType) (h : elemValOK e ety = true) :
    ∀ env fuel, parseTypeAny env (fuel + 1) e ety = .ok e := by
  intro env fuel
  cases e with
  | int i => cases ety with
    | int => rfl
    | bool => exact absurd h (by simp [elemValOK])
    | str => exact absurd h (by simp [elemValOK])
    | target => exact absurd h (by simp [elemValOK])
    | arr t2 => exact absurd h (by simp [elemValOK])
    | map t2 t3 => exact absurd h (by simp [elemValOK])
  | bool b => cases ety with
    | bool => rfl
    | int => exact absurd h (by simp [elemValOK])
    | str => exact absurd h (by simp [elemValOK])
    | target => exact absurd h (by simp [elemValOK])
    | arr t2 => exact absurd h (by simp [elemValOK])
    | map t2 t3 => exact absurd h (by simp [elemValOK])
  | str s => cases ety with
    | str => rfl
    | int => exact absurd h (by simp [elemValOK])
    | bool => exact absurd h (by simp [elemValOK])
    | target => exact absurd h (by simp [elemValOK])
    | arr t2 => exact absurd h (by simp [elemValOK])
    | map t2 t3 => exact absurd h (by simp [elemValOK])
  | null => exact absurd h (by cases ety <;> simp [elemValOK])
  | arr es => exact absurd h (by cases ety <;> simp [elemValOK])
  | map kvs => exact absurd h (by cases ety <;> simp [elemValOK])
  | target k hst t ks a f => exact absurd h (by cases ety <;> simp [elemValOK])

/-- The dynamic-value element loop is the identity on round-trip-safe
elements. -/
theorem parseAnyElems_id (ety : VType) :
    ∀ es : List AttrVal, (∀ e ∈ es, elemValOK e ety = true) → ∀ env fuel,
      parseAnyElems (fun e0 => parseTypeAny env (fuel + 1) e0 ety) es = .ok es
  | [], _ => fun env fuel => rfl
  | e :: rest, h => by
    intro env fuel
    show (match parseTypeAny env (fuel + 1) e ety with
      | .error er => (.error er : Except TErr (List AttrVal))
      | .ok v => Except.map (fun tail => v :: tail)
          (parseAnyElems (fun e0 => parseTypeAny env (fuel + 1) e0 ety) rest)) = .ok (e :: rest)
    rw [parseTypeAny_elem_id e ety (h e (by simp)) env fuel]
    show Except.map (fun tail => e :: tail)
      (parseAnyElems (fun e0 => parseTypeAny env (fuel + 1) e0 ety) rest) = .ok (e :: rest)
    rw [parseAnyElems_id ety rest (fun x hx => h x (List.mem_cons_of_mem e hx)) env fuel]
    rfl

/-- The dynamic-value parser is the identity on round-trip-safe values. -/
theorem parseTypeAny_id (v : AttrVal) (ty : VType) (h : valOK v ty = true) :
    ∀ env fuel, parseTypeAny env (fuel + 2) v ty = .ok v := by
  intro env fuel
  cases v with
  | int i => cases ty with
    | int => rfl
    | bool => exact absurd h (by simp [valOK])
    | str => exact absurd h (by simp [valOK])
    | target => exact absurd h (by simp [valOK])
    | arr t2 => exact absurd h (by simp [valOK])
    | map t2 t3 => exact absurd h (by simp [valOK])
  | bool b => cases ty with
    | bool => rfl
    | int => exact absurd h (by simp [valOK])
    | str => exact absurd h (by simp [valOK])
    | target => exact absurd h (by simp [valOK])
    | arr t2 => exact absurd h (by simp [valOK])
    | map t2 t3 => exact absurd h (by simp [valOK])
  | str s => cases ty with
    | str => rfl
    | int => exact absurd h (by simp [valOK])
    | bool => exact absurd h (by simp [valOK])
    | target => exact absurd h (by simp [valOK])
    | arr t2 => exact absurd h (by simp [valOK])
    | map t2 t3 => exact absurd h (by simp [valOK])
  | arr es =>
    cases ty with
    | arr ety =>
      have helems : ∀ e ∈ es, elemValOK e ety = true := by
        rw [valOK, Bool.and_eq_true, List.all_eq_true] at h
        exact fun e he => h.2 e he
      show (match parseAnyElems (fun e0 => parseTypeAny env (fuel + 1) e0 ety) es with
        | .error er => (.error er : Except TErr AttrVal)
        | .ok out => .ok (.arr out)) = .ok (.arr es)
      rw [parseAnyElems_id ety es helems env fuel]
    | int => exact absurd h (by simp [valOK])
    | bool => exact absurd h (by simp [valOK])
    | str => exact absurd h (by simp [valOK])
    | target => exact absurd h (by simp [valOK])
    | map t2 t3 => exact absurd h (by simp [valOK])
  | null => exact absurd h (by cases ty <;> simp [valOK])
  | map kvs => exact absurd h (by cases ty <;> simp [valOK])
  | target k hst t ks a f => exact absurd h (by cases ty <;> simp [valOK])

/-- The attribute type and value-safety packed in `attrOK`. -/
theorem attrOK_facts {kind : TargetKindInfo} {k : Str} {v : AttrVal}
    (h : attrOK kind (k, v) = true) :
    attrNameOK k = true ∧ ∃ ty, lookupStr kind.key2vtype k = some ty ∧ valOK v ty = true := by
  rw [attrOK, Bool.and_eq_true] at h
  obtain ⟨hn, hm⟩ := h
  refine ⟨hn, ?_⟩
  cases hl : lookupStr kind.key2vtype k with
  | none =>
    rw [show lookupStr kind.key2vtype (k, v).1 = none from hl] at hm
    exact absurd hm (by simp)
  | some ty =>
    rw [show lookupStr kind.key2vtype (k, v).1 = some ty from hl] at hm
    exact ⟨ty, rfl, hm⟩

/-- The config attribute loop is the identity on round-trip-safe
attributes. -/
theorem parseConfigAttrs_id (kind : TargetKindInfo) :
    ∀ m : ConfigMap, (∀ p ∈ m, attrOK kind p = true) → ∀ env fuel,
      parseConfigAttrs kind (parseTypeAny env (fuel + 2)) m = .ok m
  | [], _ => fun env fuel => rfl
  | (key, v) :: rest, h => by
    intro env fuel
    obtain ⟨hname, ty, hty, hval⟩ := attrOK_facts (h (key, v) (by simp))
    show (match findTypeInfo kind key with
      | .error er => (.error er : Except TErr ConfigMap)
      | .ok info =>
        match parseTypeAny env (fuel + 2) v info with
        | .error er => .error er
        | .ok w => Except.map (fun tail => (key, w) :: tail)
            (parseConfigAttrs kind (parseTypeAny env (fuel + 2)) rest)) = .ok ((key, v) :: rest)
    rw [show findTypeInfo kind key = .ok ty by rw [findTypeInfo, hty]]
    show (match parseTypeAny env (fuel + 2) v ty with
      | .error er => (.error er : Except TErr ConfigMap)
      | .ok w => Except.map (fun tail => (key, w) :: tail)
          (parseConfigAttrs kind (parseTypeAny env (fuel + 2)) rest)) = .ok ((key, v) :: rest)
    rw [parseTypeAny_id v ty hval env fuel]
    show Except.map (fun tail => (key, v) :: tail)
      (parseConfigAttrs kind (parseTypeAny env (fuel + 2)) rest) = .ok ((key, v) :: rest)
    rw [parseConfigAttrs_id kind rest (fun p hp => h p (List.mem_cons_of_mem _ hp)) env fuel]
    rfl

/-- String-key extraction undoes the `str` wrapping. -/
theorem extractStrKeys_map : ∀ ks : List Str, extractStrKeys (ks.map AttrVal.str) = .ok ks
  | [] => rfl
  | k :: rest => by
    rw [List.map_cons]
    show Except.map (fun tail => k :: tail) (extractStrKeys (rest.map AttrVal.str)) = _
    rw [extractStrKeys_map rest]
    rfl

/-- Characters of a join come from the separator or some element. -/
theorem mem_joinRec (sep : Char) : ∀ (ts : List Str) (c : Char), c ∈ joinRec sep ts →
    c = sep ∨ ∃ t ∈ ts, c ∈ t
  | [], c, hc => by simp [joinRec] at hc
  | [t], c, hc => by
    rw [show joinRec sep [t] = t from rfl] at hc
    exact Or.inr ⟨t, by simp, hc⟩
  | t :: t2 :: ts, c, hc => by
    rw [show joinRec sep (t :: t2 :: ts) = t ++ sep :: joinRec sep (t2 :: ts) from rfl] at hc
    rcases List.mem_append.mp hc with h1 | h1
    · exact Or.inr ⟨t, by simp, h1⟩
    · rcases List.mem_cons.mp h1 with h2 | h2
      · exact Or.inl h2
      · rcases mem_joinRec sep (t2 :: ts) c h2 with h3 | ⟨t3, ht3, hc3⟩
        · exact Or.inl h3
        · exact Or.inr ⟨t3, List.mem_cons_of_mem t ht3, hc3⟩

/-- The character facts packed in `plainStr`. -/
theorem plainStr_facts {k : Str} (h : plainStr k = true) :
    k ≠ [] ∧ ∀ c ∈ k, c ≠ ' ' ∧ c ≠ ',' ∧ c ≠ quoteChar ∧ c ≠ escapeChar := by
  rw [plainStr, Bool.and_eq_true, decide_eq_true_eq, List.all_eq_true] at h
  refine ⟨h.1, fun c hc => ?_⟩
  have := h.2 c hc
  rw [plainChar, decide_eq_true_eq] at this
  exact this

/-- The raw-string element loop maps plain keys to string values. -/
theorem parseElems_str_keys :
    ∀ ks : List Str, (∀ k ∈ ks, plainStr k = true) → ∀ env fuel,
      parseElems (fun sub => parseTypeStr env (fuel + 1) sub .str) ks =
        .ok (ks.map AttrVal.str)
  | [], _ => fun env fuel => rfl
  | k :: rest, h => by
    intro env fuel
    obtain ⟨hk, hchars⟩ := plainStr_facts (h k (by simp))
    show (match parseTypeStr env (fuel + 1) k .str with
      | .error er => (.error er : Except TErr (List AttrVal))
      | .ok v => Except.map (fun tail => v :: tail)
          (parseElems (fun sub => parseTypeStr env (fuel + 1) sub .str) rest)) = _
    rw [show parseTypeStr env (fuel + 1) k .str = .ok (.str k) by
      rw [parseTypeStr_succ]
      show (Except.ok (AttrVal.str (trimSpaces (interpret k))) : Except TErr AttrVal) = _
      rw [interpret_plain k (fun c hc => ⟨(hchars c hc).2.2.2, (hchars c hc).2.2.1⟩)]
      rw [trimSpaces_of_no_space k (fun c hc => (hchars c hc).1)]]
    show Except.map (fun tail => AttrVal.str k :: tail)
      (parseElems (fun sub => parseTypeStr env (fuel + 1) sub .str) rest) = _
    rw [parseElems_str_keys rest (fun x hx => h x (List.mem_cons_of_mem k hx)) env fuel]
    rfl

/-- The facts packed in `keysOK`. -/
theorem keysOK_facts {ks : List Str} (h : keysOK ks = true) :
    ks ≠ [] ∧ (∀ k ∈ ks, plainStr k = true) ∧ dedupKeys ks = ks := by
  rw [keysOK, Bool.and_eq_true, Bool.and_eq_true, decide_eq_true_eq, decide_eq_true_eq,
    List.all_eq_true] at h
  exact ⟨h.1.1, fun k hk => h.1.2 k hk, h.2⟩

/-- The rendered `keys` value (a comma join of plain keys) parses back to
the string array of the keys. -/
theorem keys_value_parse {ks : List Str} (h : keysOK ks = true) : ∀ env fuel,
    parseTypeStr env (fuel + 2) (joinRec ',' ks) (.arr .str) =
      .ok (.arr (ks.map AttrVal.str)) := by
  intro env fuel
  obtain ⟨hne, hplain, _⟩ := keysOK_facts h
  obtain ⟨k1, ks', rfl⟩ : ∃ k1 ks', ks = k1 :: ks' := by
    cases ks with
    | nil => exact absurd rfl hne
    | cons k1 ks' => exact ⟨k1, ks', rfl⟩
  have hjoin_plain : ∀ c ∈ joinRec ',' (k1 :: ks'), c ≠ escapeChar ∧ c ≠ quoteChar := by
    intro c hc
    rcases mem_joinRec ',' (k1 :: ks') c hc with h1 | ⟨t, ht, hct⟩
    · exact ⟨h1 ▸ (by decide), h1 ▸ (by decide)⟩
    · obtain ⟨_, hcf⟩ := plainStr_facts (hplain t ht)
      exact ⟨(hcf c hct).2.2.2, (hcf c hct).2.2.1⟩
  have hsplit : splitString (joinRec ',' (k1 :: ks')) ',' = .ok (k1 :: ks') := by
    unfold splitString
    have := splitLoop_joinRec k1 ks' (fun x hx => by
      obtain ⟨hxne, hxc⟩ := plainStr_facts (hplain x hx)
      exact ⟨hxne, consumesTok_plain x (fun c hc =>
        ⟨(hxc c hc).2.1, (hxc c hc).2.2.1, (hxc c hc).2.2.2⟩)⟩) []
    simpa using this
  rw [parseTypeStr_succ]
  show (match splitString (interpret (joinRec ',' (k1 :: ks'))) ',' with
    | .error e => (.error e : Except TErr AttrVal)
    | .ok parts =>
      match parseElems (fun sub => parseTypeStr env (fuel + 1) sub .str) parts with
      | .error e => .error e
      | .ok elems => .ok (.arr elems)) = .ok (.arr ((k1 :: ks').map AttrVal.str))
  rw [interpret_plain _ hjoin_plain, hsplit]
  show (match parseElems (fun sub => parseTypeStr env (fuel + 1) sub .str) (k1 :: ks') with
    | .error e => (.error e : Except TErr AttrVal)
    | .ok elems => .ok (.arr elems)) = _
  rw [parseElems_str_keys (k1 :: ks') hplain env fuel]

/-- Taking and dropping up to a pivot character that fails the predicate,
over an append whose first part satisfies it. -/
theorem takeWhile_append_pivot (p : Char → Bool) (x : Char) (hx : p x = false) :
    ∀ (k vs : Str), (∀ c ∈ k, p c = true) →
      (k ++ x :: vs).takeWhile p = k ∧ (k ++ x :: vs).dropWhile p = x :: vs
  | [], vs, _ => by
    constructor
    · rw [List.nil_append, List.takeWhile_cons, hx]
      simp
    · rw [List.nil_append, List.dropWhile_cons, hx]
      simp
  | c :: k', vs, h => by
    have hc := h c (by simp)
    obtain ⟨ih1, ih2⟩ := takeWhile_append_pivot p x hx k' vs (fun a ha => h a (by simp [ha]))
    constructor
    · rw [List.cons_append, List.takeWhile_cons, hc, if_pos rfl, ih1]
    · rw [List.cons_append, List.dropWhile_cons, hc, if_pos rfl, ih2]

/-- Stripping the dash prefix of a rendered flag token exposes the
key/value text. -/
theorem removePrefixDashes_entry (k vs : Str) (hkdash : k.head? ≠ some '-') (hkne : k ≠ []) :
    removePrefixDashes (entryTok k vs) = .ok (k ++ '=' :: vs) := by
  obtain ⟨c, k', rfl⟩ : ∃ c k', k = c :: k' := by
    cases k with
    | nil => exact absurd rfl hkne
    | cons c k' => exact ⟨c, k', rfl⟩
  have hc : c ≠ '-' := by simpa using hkdash
  have htw : (entryTok (c :: k') vs).takeWhile (fun a => decide (a = '-')) = ['-'] := by
    show (('-' :: ((c :: k') ++ '=' :: vs)).takeWhile fun a => decide (a = '-')) = ['-']
    rw [List.takeWhile_cons]
    rw [show (decide ('-' = '-')) = true from rfl, if_pos rfl]
    rw [List.cons_append, List.takeWhile_cons]
    rw [show (decide (c = '-')) = false from decide_eq_false hc]
    simp
  unfold removePrefixDashes
  rw [htw]
  rw [if_neg (by simp)]
  rw [if_neg (by
    show ¬((entryTok (c :: k') vs).length ≤ (['-'] : Str).length)
    show ¬(('-' :: ((c :: k') ++ '=' :: vs)).length ≤ (['-'] : Str).length)
    simp)]
  show Except.ok ((entryTok (c :: k') vs).drop 1) = _
  show Except.ok (((c :: k') ++ '=' :: vs).drop 0) = _
  rw [List.drop_zero]

/-- Splitting a rendered flag body at its first equals sign. -/
theorem parseKVPair_entry (k vs next : Str) (hkeq : ∀ c ∈ k, c ≠ '=') (hkne : k ≠ [])
    (hvs : vs ≠ []) : parseKVPair (k ++ '=' :: vs) next = .ok (1, k, vs) := by
  have hcont : (k ++ '=' :: vs).contains '=' = true := by simp
  obtain ⟨htake, hdrop⟩ := takeWhile_append_pivot (fun a => decide (a ≠ '=')) '='
    (by simp) k vs (fun c hc => by simp [hkeq c hc])
  unfold parseKVPair
  rw [hcont, if_pos rfl]
  rw [htake, hdrop]
  rw [if_neg (not_or.mpr ⟨hkne, by simpa using hvs⟩)]
  rfl

/-- One step of the flag loop on a rendered `-key=value` token: the pair is
recognized, the value parsed against the key schema, and the entry
appended. -/
theorem parseFlag_step (kind : TargetKindInfo) (pt : Str → VType → Except TErr AttrVal)
    (k vs : Str) (ty : VType) (v : AttrVal) (rest : List Str) (config : ConfigMap)
    (hkne : k ≠ []) (hkdash : k.head? ≠ some '-') (hkeq : ∀ c ∈ k, c ≠ '=')
    (hvs : vs ≠ []) (hdup : lookupStr config k = none)
    (hty : lookupStr kind.key2vtype k = some ty) (hv : pt vs ty = .ok v) :
    parseAttrFlagsAux kind pt (entryTok k vs :: rest) config false =
      parseAttrFlagsAux kind pt rest (config ++ [(k, v)]) false := by
  show (match removePrefixDashes (entryTok k vs) with
    | .error e => (.error e : Except TErr ConfigMap)
    | .ok stripped =>
      match parseKVPair stripped (rest.head?.getD []) with
      | .error e => .error e
      | .ok (consumed, key, value) =>
        if (lookupStr config key).isSome then .error .valueError
        else
          match findTypeInfo kind key with
          | .error e => .error e
          | .ok info =>
            match pt value info with
            | .error e => .error e
            | .ok w =>
              parseAttrFlagsAux kind pt rest (config ++ [(key, w)])
                (decide (consumed = 2))) = _
  rw [removePrefixDashes_entry k vs hkdash hkne]
  show (match parseKVPair (k ++ '=' :: vs) (rest.head?.getD []) with
    | .error e => (.error e : Except TErr ConfigMap)
    | .ok (consumed, key, value) =>
      if (lookupStr config key).isSome then .error .valueError
      else
        match findTypeInfo kind key with
        | .error e => .error e
        | .ok info =>
          match pt value info with
          | .error e => .error e
          | .ok w =>
            parseAttrFlagsAux kind pt rest (config ++ [(key, w)])
              (decide (consumed = 2))) = _
  rw [parseKVPair_entry k vs _ hkeq hkne hvs]
  show (if (lookupStr config k).isSome then (.error .valueError : Except TErr ConfigMap)
    else
      match findTypeInfo kind k with
      | .error e => .error e
      | .ok info =>
        match pt vs info with
        | .error e => .error e
        | .ok w =>
          parseAttrFlagsAux kind pt rest (config ++ [(k, w)]) (decide ((1 : Nat) = 2))) = _
  rw [if_neg (show ¬((lookupStr config k).isSome = true) from by rw [hdup]; simp)]
  rw [show findTypeInfo kind k = .ok ty from by rw [findTypeInfo, hty]]
  show (match pt vs ty with
    | .error e => (.error e : Except TErr ConfigMap)
    | .ok w =>
      parseAttrFlagsAux kind pt rest (config ++ [(k, w)]) (decide ((1 : Nat) = 2))) = _
  rw [hv]
  show parseAttrFlagsAux kind pt rest (config ++ [(k, v)]) (decide ((1 : Nat) = 2)) = _
  rw [show (decide ((1 : Nat) = 2)) = false from rfl]

/-- A rendered flag token is consumed whole by the space splitter. -/
theorem consumesTok_entryTok (k vs : Str)
    (hk : ∀ c ∈ k, c ≠ ' ' ∧ c ≠ quoteChar ∧ c ≠ escapeChar)
    (hvs : ConsumesTok ' ' vs) : ConsumesTok ' ' (entryTok k vs) := by
  have h1 : ConsumesTok ' ' ['-'] := consumesTok_char (by decide) (by decide) (by decide)
  have h2 : ConsumesTok ' ' k := consumesTok_plain k hk
  have h3 : ConsumesTok ' ' ['='] := consumesTok_char (by decide) (by decide) (by decide)
  have := consumesTok_append h1 (consumesTok_append h2 (consumesTok_append h3 hvs))
  simpa [entryTok] using this

/-- The facts packed in `attrNameOK`. -/
theorem attrNameOK_facts {k : Str} (h : attrNameOK k = true) :
    k ≠ [] ∧ (∀ c ∈ k, c ≠ ' ' ∧ c ≠ quoteChar ∧ c ≠ escapeChar ∧ c ≠ '=') ∧
      k.head? ≠ some '-' ∧
      (k ≠ kKind ∧ k ≠ kTag ∧ k ≠ kKeys ∧ k ≠ kHost ∧ k ≠ kFeatures ∧ k ≠ kFromDevice) := by
  rw [attrNameOK, Bool.and_eq_true, Bool.and_eq_true, Bool.and_eq_true,
    decide_eq_true_eq, decide_eq_true_eq, decide_eq_true_eq, List.all_eq_true] at h
  refine ⟨h.1.1.1, fun c hc => ?_, h.1.2, h.2⟩
  have := h.1.1.2 c hc
  rw [decide_eq_true_eq] at this
  exact this

/-- A round-trip-safe value is never the undefined value. -/
theorem not_null_of_valOK {v : AttrVal} {ty : VType} (h : valOK v ty = true) :
    isNullVal v = false := by
  cases v with
  | null => exact absurd h (by cases ty <;> simp [valOK])
  | int i => rfl
  | bool b => rfl
  | str s => rfl
  | arr es => rfl
  | map kvs => rfl
  | target k hst t ks a f => rfl

/-- The fused entry round trip: over any duplicate-free selection of
attribute keys, the stringifier renders one non-empty space-consumable
`-key=value` token per key, and the flag loop parses the tokens back to
exactly those entries, appended to the incoming config. -/
theorem entries_roundtrip (kind : TargetKindInfo) (attrs : ConfigMap)
    (hall : ∀ p ∈ attrs, attrOK kind p = true) :
    ∀ kl : List Str, (∀ k ∈ kl, (lookupStr attrs k).isSome = true) → kl.Nodup →
    ∃ (toks : List Str) (attrs2 : ConfigMap),
      stringifyEntries attrs kl = .ok toks ∧
      (∀ tk ∈ toks, tk ≠ [] ∧ ConsumesTok ' ' tk) ∧
      attrs2.map Prod.fst = kl ∧
      (∀ k v, (k, v) ∈ attrs2 → lookupStr attrs k = some v) ∧
      ∀ env fuel (config : ConfigMap), (∀ k ∈ kl, lookupStr config k = none) →
        parseAttrFlagsAux kind (parseTypeStr env (fuel + 2)) toks config false =
          .ok (config ++ attrs2)
  | [], _, _ =>
    ⟨[], [], rfl, by simp, rfl, by simp, fun env fuel config _ => by
      rw [List.append_nil]
      rfl⟩
  | k :: rest, hmemo, hnodup => by
    obtain ⟨v, hlv⟩ := Option.isSome_iff_exists.mp (hmemo k (by simp))
    have hOK := hall (k, v) (mem_of_lookup hlv)
    obtain ⟨hname, ty, hty, hval⟩ := attrOK_facts hOK
    have hnull : isNullVal v = false := not_null_of_valOK hval
    obtain ⟨u, hsv, hune, hcons, hparse⟩ := val_roundtrip v ty hval
    obtain ⟨hkne, hkchars, hkdash, _⟩ := attrNameOK_facts hname
    have hknotmem : k ∉ rest := (List.nodup_cons.mp hnodup).1
    obtain ⟨toks', attrs2', hstr', htoks', hfst', hvals', hparse'⟩ :=
      entries_roundtrip kind attrs hall rest
        (fun x hx => hmemo x (List.mem_cons_of_mem k hx)) (List.nodup_cons.mp hnodup).2
    refine ⟨entryTok k u :: toks', (k, v) :: attrs2', ?_, ?_, ?_, ?_, ?_⟩
    · show (match lookupStr attrs k with
        | none => (.error .fatal : Except TErr (List Str))
        | some w =>
          if isNullVal w then stringifyEntries attrs rest
          else
            match stringifyValue w with
            | .error e => .error e
            | .ok value =>
              Except.map
                (fun tail => if value = [] then tail else ('-' :: k ++ '=' :: value) :: tail)
                (stringifyEntries attrs rest)) = _
      rw [hlv]
      show (if isNullVal v then stringifyEntries attrs rest
        else
          match stringifyValue v with
          | .error e => (.error e : Except TErr (List Str))
          | .ok value =>
            Except.map
              (fun tail => if value = [] then tail else ('-' :: k ++ '=' :: value) :: tail)
              (stringifyEntries attrs rest)) = _
      rw [hnull]
      show (match stringifyValue v with
        | .error e => (.error e : Except TErr (List Str))
        | .ok value =>
          Except.map
            (fun tail => if value = [] then tail else ('-' :: k ++ '=' :: value) :: tail)
            (stringifyEntries attrs rest)) = _
      rw [hsv]
      show Except.map
        (fun tail => if u = [] then tail else ('-' :: k ++ '=' :: u) :: tail)
        (stringifyEntries attrs rest) = _
      rw [hstr']
      show Except.ok (if u = [] then toks' else ('-' :: k ++ '=' :: u) :: toks') = _
      rw [if_neg hune]
      rfl
    · intro tk htk
      rcases List.mem_cons.mp htk with h1 | h1
      · subst h1
        refine ⟨by simp [entryTok], ?_⟩
        exact consumesTok_entryTok k u
          (fun c hc => ⟨(hkchars c hc).1, (hkchars c hc).2.1, (hkchars c hc).2.2.1⟩) hcons
      · exact htoks' tk h1
    · rw [List.map_cons, hfst']
    · intro k2 v2 hmem2
      rcases List.mem_cons.mp hmem2 with h1 | h1
      · rw [show k2 = k from congrArg Prod.fst h1, show v2 = v from congrArg Prod.snd h1]
        exact hlv
      · exact hvals' k2 v2 h1
    · intro env fuel config hnone
      rw [parseFlag_step kind (parseTypeStr env (fuel + 2)) k u ty v toks' config hkne hkdash
        (fun c hc => (hkchars c hc).2.2.2) hune (hnone k (by simp)) hty (hparse env fuel)]
      rw [hparse' env fuel (config ++ [(k, v)]) (fun k2 hk2 => by
        rw [lookupStr_append]
        rw [hnone k2 (List.mem_cons_of_mem k hk2)]
        show lookupStr [(k, v)] k2 = none
        rw [lookupStr, if_neg (fun heq => hknotmem (by rw [heq]; exact hk2)), lookupStr])]
      rw [List.append_assoc]
      rfl

/-- A key that every entry avoids is absent. -/
theorem lookup_none_of_names {m : ConfigMap} {r : Str} (h : ∀ p ∈ m, p.1 ≠ r) :
    lookupStr m r = none := by
  rw [lookup_eq_none_iff]
  intro hmem
  obtain ⟨p, hp, hp1⟩ := List.mem_map.mp hmem
  exact h p hp hp1

/-- Erasing the key of the head entry. -/
theorem eraseStr_cons_eq (k : Str) (w : AttrVal) (m : ConfigMap) :
    eraseStr ((k, w) :: m) k = eraseStr m k := by
  unfold eraseStr
  rw [List.filter_cons, if_neg (by simp)]

/-- Erasing a key different from the head entry. -/
theorem eraseStr_cons_ne (k1 : Str) (w : AttrVal) (m : ConfigMap) (k : Str) (h : k1 ≠ k) :
    eraseStr ((k1, w) :: m) k = (k1, w) :: eraseStr m k := by
  unfold eraseStr
  rw [List.filter_cons, if_pos (by simpa using h)]

/-- Merging kind defaults that are all present changes nothing. -/
theorem mergeMissing_of_defaults {kind : TargetKindInfo} {m : ConfigMap}
    (h : defaultsOK kind m = true) : mergeMissing m kind.key2default = m := by
  unfold mergeMissing
  rw [defaultsOK, List.all_eq_true] at h
  rw [show kind.key2default.filter (fun p => (lookupStr m p.1).isNone) = [] from
    List.filter_eq_nil.mpr (fun p hp => by
      have hs := h p hp
      cases hl : lookupStr m p.1 with
      | none => rw [hl] at hs; exact absurd hs (by simp)
      | some w => simp)]
  rw [List.append_nil]

/-- Without a `from_device` attribute the device query step is skipped. -/
theorem handleFromDevice_none (env : TargetEnv) (kind : TargetKindInfo) (m : ConfigMap)
    (h : lookupStr m kFromDevice = none) : handleFromDevice env kind m = .ok m := by
  unfold handleFromDevice
  rw [h]

/-- The key resolution on a canonical config: explicit string keys are taken
verbatim, and the device value — absent, or already among the keys — is
absorbed by the deduplication. -/
theorem resolveKeys_canon (config2 : ConfigMap) (kind : TargetKindInfo) (ks : List Str)
    (hlk : lookupStr config2 kKeys = some (.arr (ks.map AttrVal.str)))
    (hdevcase : lookupStr config2 kDeviceName = none ∨
      ∃ d, lookupStr config2 kDeviceName = some (.str d) ∧ d ∈ ks)
    (hded : dedupKeys ks = ks) :
    resolveKeys config2 kind = .ok ks := by
  unfold resolveKeys
  rw [hlk]
  show (match extractStrKeys (ks.map AttrVal.str) with
    | .error e => (.error e : Except TErr (List Str))
    | .ok userKeys => .ok (dedupKeys (userKeys ++ deviceKeyPart config2))) = .ok ks
  rw [extractStrKeys_map]
  show Except.ok (dedupKeys (ks ++ deviceKeyPart config2)) = .ok ks
  unfold deviceKeyPart
  rcases hdevcase with hd | ⟨d, hd, hdm⟩
  · rw [hd]
    show Except.ok (dedupKeys (ks ++ [])) = .ok ks
    rw [List.append_nil, hded]
  · rw [hd]
    show Except.ok (dedupKeys (ks ++ [d])) = .ok ks
    unfold dedupKeys
    rw [dedupAux_append_mem [] ks d (Or.inr hdm)]
    rw [show dedupAux [] ks = ks from hded]

/-- `FromConfig` on the canonical config assembled by the raw-string flag
loop: the reserved entries are consumed structurally, the keys resolve to
the explicit key list, and the attributes pass through unchanged. -/
theorem fromConfig_assembled
    (env : TargetEnv) (kind : TargetKindInfo) (kname : Str) (ks : List Str)
    (attrs2 : ConfigMap) (fuel : Nat)
    (h1 : env.kinds kname = some kind)
    (h3 : kind.targetParser = none)
    (h4 : kind.preprocessor = none)
    (hnames : ∀ p ∈ attrs2, attrNameOK p.1 = true)
    (hattrs : ∀ p ∈ attrs2, attrOK kind p = true)
    (hded : dedupKeys ks = ks)
    (hdev : deviceOK attrs2 ks = true)
    (hdefaults : defaultsOK kind attrs2 = true) :
    fromConfig env (fuel + 3)
      ((kKind, .str kname) :: (kKeys, .arr (ks.map AttrVal.str)) :: attrs2) =
      .ok (.target kind.name none [] ks attrs2 []) := by
  have hres : ∀ p ∈ attrs2, p.1 ≠ kKind ∧ p.1 ≠ kTag ∧ p.1 ≠ kKeys ∧ p.1 ≠ kHost ∧
      p.1 ≠ kFeatures ∧ p.1 ≠ kFromDevice :=
    fun p hp => (attrNameOK_facts (hnames p hp)).2.2.2
  have hnoFeat : lookupStr attrs2 kFeatures = none :=
    lookup_none_of_names (fun p hp => (hres p hp).2.2.2.2.1)
  have hnoTag : lookupStr attrs2 kTag = none :=
    lookup_none_of_names (fun p hp => (hres p hp).2.1)
  have hnoHost : lookupStr attrs2 kHost = none :=
    lookup_none_of_names (fun p hp => (hres p hp).2.2.2.1)
  have hnoFrom : lookupStr attrs2 kFromDevice = none :=
    lookup_none_of_names (fun p hp => (hres p hp).2.2.2.2.2)
  have hnoKind : kKind ∉ attrs2.map Prod.fst := by
    intro hm
    obtain ⟨p, hp, hp1⟩ := List.mem_map.mp hm
    exact (hres p hp).1 hp1
  have hfeat : lookupStr ((kKind, AttrVal.str kname) ::
      (kKeys, AttrVal.arr (ks.map AttrVal.str)) :: attrs2) kFeatures = none := by
    rw [lookupStr, if_neg (show kKind ≠ kFeatures from by decide)]
    rw [lookupStr, if_neg (show kKeys ≠ kFeatures from by decide)]
    exact hnoFeat
  have hkind : lookupStr ((kKind, AttrVal.str kname) ::
      (kKeys, AttrVal.arr (ks.map AttrVal.str)) :: attrs2) kKind =
      some (AttrVal.str kname) := by
    rw [lookupStr, if_pos rfl]
  have hgtk : getTargetKind env kname = .ok kind := by
    rw [getTargetKind, h1]
  have hhook : runTargetParserHook kind ((kKind, AttrVal.str kname) ::
      (kKeys, AttrVal.arr (ks.map AttrVal.str)) :: attrs2) =
      .ok ((kKind, AttrVal.str kname) ::
        (kKeys, AttrVal.arr (ks.map AttrVal.str)) :: attrs2, []) := by
    unfold runTargetParserHook
    rw [h3]
  have herase1 : eraseStr ((kKind, AttrVal.str kname) ::
      (kKeys, AttrVal.arr (ks.map AttrVal.str)) :: attrs2) kKind =
      (kKeys, AttrVal.arr (ks.map AttrVal.str)) :: attrs2 := by
    rw [eraseStr_cons_eq, eraseStr_cons_ne _ _ _ _ (show kKeys ≠ kKind from by decide)]
    rw [eraseStr_of_not_mem attrs2 kKind hnoKind]
  have htag : lookupStr ((kKeys, AttrVal.arr (ks.map AttrVal.str)) :: attrs2) kTag =
      none := by
    rw [lookupStr, if_neg (show kKeys ≠ kTag from by decide)]
    exact hnoTag
  have hdevcase : lookupStr ((kKeys, AttrVal.arr (ks.map AttrVal.str)) :: attrs2)
        kDeviceName = none ∨
      ∃ d, lookupStr ((kKeys, AttrVal.arr (ks.map AttrVal.str)) :: attrs2) kDeviceName =
        some (.str d) ∧ d ∈ ks := by
    rw [lookupStr, if_neg (show kKeys ≠ kDeviceName from by decide)]
    rw [deviceOK] at hdev
    cases hl : lookupStr attrs2 kDeviceName with
    | none => exact Or.inl rfl
    | some w =>
      rw [hl] at hdev
      cases w with
      | str d =>
        rw [decide_eq_true_eq] at hdev
        exact Or.inr ⟨d, rfl, hdev⟩
      | null => exact absurd hdev (by simp)
      | int i => exact absurd hdev (by simp)
      | bool b => exact absurd hdev (by simp)
      | arr es => exact absurd hdev (by simp)
      | map kvs => exact absurd hdev (by simp)
      | target k2 h2 t2 ks2 a2 f2 => exact absurd hdev (by simp)
  have hrk : resolveKeys ((kKeys, AttrVal.arr (ks.map AttrVal.str)) :: attrs2) kind =
      .ok ks :=
    resolveKeys_canon _ kind ks (by rw [lookupStr, if_pos rfl]) hdevcase hded
  have herase2 : eraseStr ((kKeys, AttrVal.arr (ks.map AttrVal.str)) :: attrs2) kKeys =
      attrs2 := by
    rw [eraseStr_cons_eq]
    refine eraseStr_of_not_mem attrs2 kKeys ?_
    intro hm
    obtain ⟨p, hp, hp1⟩ := List.mem_map.mp hm
    exact (hres p hp).2.2.1 hp1
  have hpca : parseConfigAttrs kind ((ctors env (fuel + 2)).parseTypeAnyF) attrs2 =
      .ok attrs2 := parseConfigAttrs_id kind attrs2 hattrs env fuel
  have hfd : handleFromDevice env kind attrs2 = .ok attrs2 :=
    handleFromDevice_none env kind attrs2 hnoFrom
  have hmm : mergeMissing attrs2 kind.key2default = attrs2 :=
    mergeMissing_of_defaults hdefaults
  have hpp : runPreprocessor kind attrs2 = .ok attrs2 := by
    unfold runPreprocessor
    rw [h4]
  show fromConfigBody env (ctors env (fuel + 2))
    ((kKind, .str kname) :: (kKeys, .arr (ks.map AttrVal.str)) :: attrs2) = _
  unfold fromConfigBody
  rw [hfeat]
  simp only [Option.isSome_none, Bool.false_eq_true, if_false]
  simp only [hkind]
  simp only [hgtk]
  simp only [h3, h4, Option.isSome_none, Bool.false_eq_true, and_false, false_and, if_false]
  simp only [hhook]
  simp only [herase1]
  simp only [htag]
  simp only [hrk, herase2, hnoHost, hpca, hfd, hmm, hpp]

/-- A map whose entries are drawn from another map, with the same key set up
to permutation, has the same lookups. -/
theorem lookup_eq_of_perm_entries (attrs attrs2 : ConfigMap)
    (hperm : List.Perm (attrs2.map Prod.fst) (attrs.map Prod.fst))
    (hvals : ∀ k v, (k, v) ∈ attrs2 → lookupStr attrs k = some v) :
    ∀ n, lookupStr attrs2 n = lookupStr attrs n := by
  intro n
  cases h2 : lookupStr attrs2 n with
  | some v => exact (hvals n v (mem_of_lookup h2)).symm
  | none =>
    have hn2 : n ∉ attrs2.map Prod.fst := (lookup_eq_none_iff _ _).mp h2
    have hn : n ∉ attrs.map Prod.fst := fun hm => hn2 (hperm.mem_iff.mpr hm)
    exact ((lookup_eq_none_iff _ _).mpr hn).symm

/-- A present key looks up to an engaged value. -/
theorem lookup_isSome_of_mem {α : Type} {m : List (Str × α)} {k : Str}
    (h : k ∈ m.map Prod.fst) : (lookupStr m k).isSome = true := by
  cases hl : lookupStr m k with
  | none => exact absurd ((lookup_eq_none_iff m k).mp hl) (not_not.mpr h)
  | some v => rfl

/-- Claim C1 (amended): for a hook-free registered kind and a canonical
target satisfying the round-trip safety conditions (`canonWF`: plain kind
name not starting with a brace, no host, empty tag, plain de-duplicated
keys, distinct safe attribute names with non-empty round-trip-safe values,
any `device` attribute recorded among the keys, kind defaults
materialised), parsing the canonical string form produced by the
stringifier yields a target observationally equal to the original: same
kind, same tag, same keys, same attributes as a map, same host.  The
original claim, quantified over every assembler-built target, is refuted by
`c1_counterexample`. -/
theorem c1_roundtrip_amended
    (env : TargetEnv) (kind : TargetKindInfo) (kname : Str) (ks : List Str)
    (attrs features : ConfigMap) (fuel : Nat) (s : Str)
    (h1 : env.kinds kname = some kind)
    (h2 : kind.name = kname)
    (h3 : kind.targetParser = none)
    (h4 : kind.preprocessor = none)
    (h5 : lookupStr kind.key2vtype kKeys = some (.arr .str))
    (h6 : canonWF kind (.target kname none [] ks attrs features) = true)
    (h7 : targetStr (.target kname none [] ks attrs features) = .ok s)
    (h8 : env.tags s = none) :
    ∃ t', fromString env (fuel + 6) s = .ok t' ∧
      observEq (.target kname none [] ks attrs features) t' = true := by
  rw [canonWF] at h6
  simp only [Bool.and_eq_true] at h6
  obtain ⟨⟨⟨⟨⟨⟨⟨⟨hplainb, hbraceb⟩, _⟩, _⟩, hksb⟩, hnodupb⟩, hallb⟩, hdevb⟩, hdefb⟩ := h6
  rw [decide_eq_true_eq] at hbraceb
  have hall : ∀ p ∈ attrs, attrOK kind p = true := List.all_eq_true.mp hallb
  obtain ⟨hknne, hknchars⟩ := plainStr_facts hplainb
  obtain ⟨hksne, hksplain, hksded⟩ := keysOK_facts hksb
  have hnodupfst : (attrs.map Prod.fst).Nodup := by
    rw [namesNodup, decide_eq_true_eq] at hnodupb
    exact (dedup_eq_self [] _ hnodupb).2
  have hklperm : List.Perm (sortStrs (attrs.map Prod.fst)) (attrs.map Prod.fst) :=
    sortStrs_perm _
  have hklnodup : (sortStrs (attrs.map Prod.fst)).Nodup := hklperm.nodup_iff.mpr hnodupfst
  have hklsome : ∀ k ∈ sortStrs (attrs.map Prod.fst), (lookupStr attrs k).isSome = true :=
    fun k hk => lookup_isSome_of_mem (hklperm.mem_iff.mp hk)
  obtain ⟨toks, attrs2, hstr, htoks, hfst, hvals, hparseA⟩ :=
    entries_roundtrip kind attrs hall (sortStrs (attrs.map Prod.fst)) hklsome hklnodup
  have hattrs2OK : ∀ p ∈ attrs2, attrOK kind p = true :=
    fun p hp => hall (p.1, p.2) (mem_of_lookup (hvals p.1 p.2 hp))
  have hattrs2names : ∀ p ∈ attrs2, attrNameOK p.1 = true := by
    intro p hp
    have hx := hattrs2OK p hp
    rw [attrOK, Bool.and_eq_true] at hx
    exact hx.1
  have hperm2 : List.Perm (attrs2.map Prod.fst) (attrs.map Prod.fst) := by
    rw [hfst]
    exact hklperm
  have hlookups : ∀ n, lookupStr attrs2 n = lookupStr attrs n :=
    lookup_eq_of_perm_entries attrs attrs2 hperm2 hvals
  have hdev2 : deviceOK attrs2 ks = true := by
    unfold deviceOK at hdevb ⊢
    rw [hlookups kDeviceName]
    exact hdevb
  have hdef2 : defaultsOK kind attrs2 = true := by
    rw [defaultsOK, List.all_eq_true] at hdefb ⊢
    intro p hp
    rw [hlookups p.1]
    exact hdefb p hp
  have hklnames : ∀ k ∈ sortStrs (attrs.map Prod.fst), attrNameOK k = true := by
    intro k hk
    obtain ⟨p, hp, hp1⟩ := List.mem_map.mp (hklperm.mem_iff.mp hk)
    have hx := hall p hp
    rw [attrOK, Bool.and_eq_true] at hx
    exact hp1 ▸ hx.1
  have hsar : stringifyAttrsToRaw attrs = .ok (joinRec ' ' toks) := by
    unfold stringifyAttrsToRaw
    rw [hstr]
    show joinString toks ' ' = _
    rw [joinString, if_neg (by decide)]
  have hts : targetStr (.target kname none [] ks attrs features) =
      .ok ((kname ++ " -keys=".data ++ joinRec ',' ks) ++ ' ' :: joinRec ' ' toks) := by
    show (match stringifyAttrsToRaw attrs with
      | .error e => (.error e : Except TErr Str)
      | .ok attrsStr =>
        .ok ((if ks = [] then kname else kname ++ " -keys=".data ++ joinRec ',' ks) ++
          ' ' :: attrsStr)) = _
    rw [hsar]
    show Except.ok ((if ks = [] then kname else kname ++ " -keys=".data ++ joinRec ',' ks) ++
      ' ' :: joinRec ' ' toks) = _
    rw [if_neg hksne]
  rw [hts] at h7
  injection h7 with hseq
  subst hseq
  have hktEq : entryTok kKeys (joinRec ',' ks) = "-keys=".data ++ joinRec ',' ks := rfl
  have hs_eq : (kname ++ " -keys=".data ++ joinRec ',' ks) ++ ' ' :: joinRec ' ' toks =
      kname ++ ' ' :: (entryTok kKeys (joinRec ',' ks) ++ ' ' :: joinRec ' ' toks) := by
    rw [hktEq]
    rw [show (" -keys=".data : Str) = ' ' :: "-keys=".data from rfl]
    simp [List.append_assoc]
  have hknameCons : ConsumesTok ' ' kname :=
    consumesTok_plain kname (fun c hc =>
      ⟨(hknchars c hc).1, (hknchars c hc).2.2.1, (hknchars c hc).2.2.2⟩)
  have hkeysvalCons : ConsumesTok ' ' (joinRec ',' ks) := by
    refine consumesTok_join (consumesTok_char (by decide) (by decide) (by decide)) ks ?_
    intro t ht
    obtain ⟨_, hcf⟩ := plainStr_facts (hksplain t ht)
    exact consumesTok_plain t (fun c hc =>
      ⟨(hcf c hc).1, (hcf c hc).2.2.1, (hcf c hc).2.2.2⟩)
  have hktCons : ConsumesTok ' ' (entryTok kKeys (joinRec ',' ks)) :=
    consumesTok_entryTok kKeys (joinRec ',' ks) (by decide) hkeysvalCons
  have hjoinksne : joinRec ',' ks ≠ [] := by
    cases ks with
    | nil => exact absurd rfl hksne
    | cons k1 ks' =>
      exact joinRec_ne_nil ',' k1 ks' (plainStr_facts (hksplain k1 (by simp))).1
  have htokfacts : ∀ x ∈ kname :: entryTok kKeys (joinRec ',' ks) :: toks,
      x ≠ [] ∧ ConsumesTok ' ' x := by
    intro x hx
    rcases List.mem_cons.mp hx with hx1 | hx1
    · exact hx1 ▸ ⟨hknne, hknameCons⟩
    · rcases List.mem_cons.mp hx1 with hx2 | hx2
      · exact hx2 ▸ ⟨by simp [entryTok], hktCons⟩
      · exact htoks x hx2
  have hsplit : splitString
      ((kname ++ " -keys=".data ++ joinRec ',' ks) ++ ' ' :: joinRec ' ' toks) ' ' =
      .ok (kname :: entryTok kKeys (joinRec ',' ks) :: toks) := by
    unfold splitString
    rw [hs_eq]
    cases toks with
    | nil =>
      have hshape : kname ++ ' ' :: (entryTok kKeys (joinRec ',' ks) ++
          ' ' :: joinRec ' ' ([] : List Str)) =
          joinRec ' ' [kname, entryTok kKeys (joinRec ',' ks)] ++ [' '] := by
        show kname ++ ' ' :: (entryTok kKeys (joinRec ',' ks) ++ ' ' :: []) =
          (kname ++ ' ' :: entryTok kKeys (joinRec ',' ks)) ++ [' ']
        simp
      rw [hshape]
      have := splitLoop_joinRec_trailing kname [entryTok kKeys (joinRec ',' ks)]
        (fun x hx => htokfacts x (by
          rcases List.mem_cons.mp hx with hx1 | hx1
          · exact hx1 ▸ List.mem_cons_self _ _
          · rcases List.mem_cons.mp hx1 with hx2 | hx2
            · exact hx2 ▸ List.mem_cons_of_mem _ (List.mem_cons_self _ _)
            · simp at hx2)) []
      simpa using this
    | cons t ts =>
      have hshape : kname ++ ' ' :: (entryTok kKeys (joinRec ',' ks) ++
          ' ' :: joinRec ' ' (t :: ts)) =
          joinRec ' ' (kname :: entryTok kKeys (joinRec ',' ks) :: t :: ts) := rfl
      rw [hshape]
      have := splitLoop_joinRec kname (entryTok kKeys (joinRec ',' ks) :: t :: ts)
        htokfacts []
      simpa using this
  have hhead : ((kname ++ " -keys=".data ++ joinRec ',' ks) ++
      ' ' :: joinRec ' ' toks).head? ≠ some lbraceChar := by
    rw [hs_eq, head?_append_left _ hknne]
    exact hbraceb
  have hgtk : getTargetKind env kname = .ok kind := by
    rw [getTargetKind, h1]
  have hkv : parseTypeStr env (fuel + 4) (joinRec ',' ks) (.arr .str) =
      .ok (.arr (ks.map AttrVal.str)) := keys_value_parse hksb env (fuel + 2)
  have hflag : parseAttrFlags kind ((ctors env (fuel + 4)).parseTypeStrF)
      (entryTok kKeys (joinRec ',' ks) :: toks) [(kKind, AttrVal.str kname)] =
      .ok ((kKind, AttrVal.str kname) ::
        (kKeys, AttrVal.arr (ks.map AttrVal.str)) :: attrs2) := by
    show parseAttrFlagsAux kind (parseTypeStr env (fuel + 4))
      (entryTok kKeys (joinRec ',' ks) :: toks) [(kKind, AttrVal.str kname)] false = _
    rw [parseFlag_step kind (parseTypeStr env (fuel + 4)) kKeys (joinRec ',' ks)
      (.arr .str) (.arr (ks.map AttrVal.str)) toks [(kKind, AttrVal.str kname)]
      (by decide) (by decide) (by decide) hjoinksne
      (by rw [lookupStr, if_neg (by decide)]; rfl) h5 hkv]
    rw [show ([(kKind, AttrVal.str kname)] : ConfigMap) ++
      [(kKeys, AttrVal.arr (ks.map AttrVal.str))] =
      [(kKind, AttrVal.str kname), (kKeys, AttrVal.arr (ks.map AttrVal.str))] from rfl]
    have hnone : ∀ k ∈ sortStrs (attrs.map Prod.fst),
        lookupStr ([(kKind, AttrVal.str kname),
          (kKeys, AttrVal.arr (ks.map AttrVal.str))] : ConfigMap) k = none := by
      intro k hk
      obtain ⟨-, -, -, hne⟩ := attrNameOK_facts (hklnames k hk)
      rw [lookupStr, if_neg (fun he => hne.1 he.symm),
        lookupStr, if_neg (fun he => hne.2.2.1 he.symm), lookupStr]
    have := hparseA env (fuel + 2)
      [(kKind, AttrVal.str kname), (kKeys, AttrVal.arr (ks.map AttrVal.str))] hnone
    rw [show parseAttrFlagsAux kind (parseTypeStr env (fuel + 4)) toks
      ([(kKind, AttrVal.str kname), (kKeys, AttrVal.arr (ks.map AttrVal.str))] :
        ConfigMap) false =
      parseAttrFlagsAux kind (parseTypeStr env (fuel + 2 + 2)) toks
      ([(kKind, AttrVal.str kname), (kKeys, AttrVal.arr (ks.map AttrVal.str))] :
        ConfigMap) false from rfl]
    rw [this]
    rfl
  have hfc : (ctors env (fuel + 4)).fromConfigF
      ((kKind, AttrVal.str kname) ::
        (kKeys, AttrVal.arr (ks.map AttrVal.str)) :: attrs2) =
      .ok (.target kind.name none [] ks attrs2 []) :=
    fromConfig_assembled env kind kname ks attrs2 (fuel + 1) h1 h3 h4
      hattrs2names hattrs2OK hksded hdev2 hdef2
  have hfs : fromString env (fuel + 6)
      ((kname ++ " -keys=".data ++ joinRec ',' ks) ++ ' ' :: joinRec ' ' toks) =
      fromRawStringBody env (ctors env (fuel + 4))
        ((kname ++ " -keys=".data ++ joinRec ',' ks) ++ ' ' :: joinRec ' ' toks) := by
    show fromStringBody env (ctors env (fuel + 5))
      ((kname ++ " -keys=".data ++ joinRec ',' ks) ++ ' ' :: joinRec ' ' toks) = _
    unfold fromStringBody
    rw [h8]
    rw [if_neg (fun hand => hhead hand.2)]
    rfl
  have hlen : ¬(((kname ++ " -keys=".data ++ joinRec ',' ks) ++
      ' ' :: joinRec ' ' toks).length = 0) := by
    simp
  have hraw : fromRawStringBody env (ctors env (fuel + 4))
      ((kname ++ " -keys=".data ++ joinRec ',' ks) ++ ' ' :: joinRec ' ' toks) =
      .ok (.target kind.name none [] ks attrs2 []) := by
    unfold fromRawStringBody
    rw [if_neg hlen, hsplit]
    show (match getTargetKind env kname with
      | .error e => (.error e : Except TErr AttrVal)
      | .ok kind2 =>
        match parseAttrFlags kind2 ((ctors env (fuel + 4)).parseTypeStrF)
            (entryTok kKeys (joinRec ',' ks) :: toks) [(kKind, .str kname)] with
        | .error e => .error e
        | .ok config => (ctors env (fuel + 4)).fromConfigF config) = _
    rw [hgtk]
    show (match parseAttrFlags kind ((ctors env (fuel + 4)).parseTypeStrF)
        (entryTok kKeys (joinRec ',' ks) :: toks) [(kKind, .str kname)] with
      | .error e => (.error e : Except TErr AttrVal)
      | .ok config => (ctors env (fuel + 4)).fromConfigF config) = _
    rw [hflag]
    show (ctors env (fuel + 4)).fromConfigF
      ((kKind, AttrVal.str kname) ::
        (kKeys, AttrVal.arr (ks.map AttrVal.str)) :: attrs2) = _
    exact hfc
  refine ⟨.target kind.name none [] ks attrs2 [], hfs.trans hraw, ?_⟩
  have hae : attrsEquiv attrs attrs2 = true :=
    attrsEquiv_of_lookup_eq attrs attrs2 (fun n => (hlookups n).symm)
  show (decide (kname = kind.name) && decide (([] : Str) = ([] : Str)) &&
    decide (ks = ks) && attrsEquiv attrs attrs2 && optValBeq none none) = true
  rw [h2, hae, show optValBeq none none = true from optValBeq_refl none]
  simp

/-- The amended round trip at a concrete input: the `llvm`-like kind, keys
`cpu, arm`, an integer and a string attribute; every safety condition holds
by computation and the round trip reproduces the target. -/
theorem c1_roundtrip_witness :
    canonWF llvmKind c1ExTarget = true ∧
    targetStr c1ExTarget = .ok "llvm -keys=cpu,arm -mtriple=x86-64 -opt-level=3".data ∧
    ∃ t', fromString llvmEnv 6 "llvm -keys=cpu,arm -mtriple=x86-64 -opt-level=3".data =
        .ok t' ∧
      observEq c1ExTarget t' = true :=
  ⟨rfl, rfl,
    c1_roundtrip_amended llvmEnv llvmKind "llvm".data ["cpu".data, "arm".data]
      [("opt-level".data, .int 3), ("mtriple".data, .str "x86-64".data)] [] 0
      "llvm -keys=cpu,arm -mtriple=x86-64 -opt-level=3".data
      rfl rfl rfl rfl rfl rfl rfl rfl⟩

/-- Claim C1 counterexample (to the original universally quantified claim):
the target built by the config assembler from the valid raw flag string
`llvm -mtriple=''` carries an empty string attribute; the stringifier omits
entries whose rendered value is empty, so its canonical form `llvm -keys=cpu `
reparses to a target without any `mtriple` attribute, which is not
observationally equal to the original. -/
theorem c1_counterexample :
    fromString llvmEnv 6 "llvm -mtriple=''".data = .ok c1CexTarget ∧
    targetStr c1CexTarget = .ok "llvm -keys=cpu ".data ∧
    fromString llvmEnv 6 "llvm -keys=cpu ".data =
      .ok (.target "llvm".data none [] ["cpu".data] [] []) ∧
    observEq c1CexTarget (.target "llvm".data none [] ["cpu".data] [] []) = false :=
  ⟨rfl, rfl, rfl, by
    show (decide ("llvm".data = "llvm".data) && decide (([] : Str) = ([] : Str)) &&
      decide ((["cpu".data] : List Str) = ["cpu".data]) &&
      attrsEquiv [("mtriple".data, AttrVal.str [])] [] && optValBeq none none) = false
    rw [show attrsEquiv [("mtriple".data, AttrVal.str [])] [] = false from by
      simp [attrsEquiv, lookupStr, optValBeq]]
    simp⟩

end TVM
